import Mathlib

/-! Air ventilation controller: embedding of `main.cpp`.

A shallow embedding of the sketch `PlatformIO/Air Ventilation Control/src/main.cpp`.

* The globals of the sketch are the fields of `Dev`, together with the parts of the
  environment the sketch talks to: the millisecond clock, the two bytes of the EEPROM
  store and the chronological list `trace` of the calls made to the collaborators
  (decoder, servo, relay pin, LED pin, EEPROM, WiFi).
* `millis()` reads `clock` as an `unsigned long` (32 bit); differences of two readings
  are taken modulo `2 ^ 32` (`subUL`).  Time passes in `delay` and where the environment
  lets it pass: before an iteration of `loop` and before each decoder poll of a nested loop.
* `int` variables hold angles.  They are set to a byte read from the store, to a limit, to 90
  or to the result of `constrain` on such a value plus or minus at most 5, far from the
  bounds of a 32-bit `int`, so they are modelled by `Int` without wrap-around.
* Answers of the environment (decoder polls, `WiFi.status()`, `WiFi.isConnected()`,
  `EEPROM.commit()`) are arguments.  A nested loop that is still running when its script
  of answers ends yields `none`.
* Serial debug output is not modelled; `getData` is never called and is left out.
-/

namespace AirVent

/-! ## Environment -/

/-- Protocol of a decoded message (`results.decode_type`); the sketch only tells `NEC`
from everything else. -/
inductive decode_type_t where
  | NEC
  | other
  deriving DecidableEq, Repr

/-- The global `results` as filled in by a successful `irrecv.decode(&results)`. -/
structure decode_results where
  decode_type : decode_type_t
  value : Nat
  deriving DecidableEq, Repr

/-- Answer of `WiFi.status()`; the sketch tests for two values only. -/
inductive wl_status_t where
  | WL_CONNECTED
  | WL_WRONG_PASSWORD
  | other
  deriving DecidableEq, Repr

/-- One call to a collaborator, as recorded in `Dev.trace`. -/
inductive Effect where
  | resume
  | servoWrite (angle : Int)
  | relayWrite (level : Bool)
  | ledWrite (level : Bool)
  | delay (ms : Nat)
  | yield
  | eepromWrite (slot : Nat) (byte : Nat)
  | eepromCommit (ok : Bool)
  | wifiBegin
  | wifiDisconnect
  | wifiReconnect
  | wifiHostname
  | wifiMode
  | wifiSoftAPdisconnect
  | thingSpeakBegin
  | servoAttach
  | irEnable
  deriving DecidableEq, Repr

/-- One poll of the decoder inside a nested loop: `dt` milliseconds pass, then
`irrecv.decode(&results)` answers `decoded` (`none` when nothing was received). -/
structure Poll where
  dt : Nat
  decoded : Option decode_results
  deriving DecidableEq, Repr

/-- Globals of the sketch (lines 71-84 and 164-177) and the environment. -/
structure Dev where
  angleCurrent : Int
  angleClosed : Int
  angleOpen : Int
  WIFI_PWD : String
  ledLastMillis : Nat
  relayTime : Nat
  Blink : Bool
  envControl : Bool
  Wifienabled : Bool
  ledState : Bool
  relayState : Bool
  clock : Nat
  eeprom0 : Nat
  eeprom1 : Nat
  trace : List Effect
  deriving DecidableEq, Repr

/-! ## Constants (lines 100-111, 165) -/

def IR_UP : Nat := 0xF700FF
def IR_DOWN : Nat := 0xF7807F
def IR_ON : Nat := 0xF7C03F
def IR_OFF : Nat := 0xF740BF
def IR_RED : Nat := 0xF720DF
def IR_GREEN : Nat := 0xF7A05F
def IR_BLUE : Nat := 0xF7609F
def IR_WHITE : Nat := 0xF7E01F
def IR_P5 : Nat := 0xF7D02F
def IR_P1 : Nat := 0xF7F00F
def IR_M1 : Nat := 0xF7C837
def IR_M5 : Nat := 0xF7E817
def LED_BLINK_INTERVAL_MS : Nat := 250

/-! ## Primitives of the platform -/

/-- Modelled from the spec: the macro `constrain` of `Arduino.h` is not among the sources;
the spec calls it the clamp to `[low, high]`.  This is the macro of the Arduino core,
`((amt)<(low)?(low):((amt)>(high)?(high):(amt)))`. -/
def constrain (amt low high : Int) : Int :=
  if amt < low then low else if amt > high then high else amt

/-- Reading of `millis()` of the Arduino core: the milliseconds since power-on as an
`unsigned long` of 32 bits. -/
def millis (d : Dev) : Nat := d.clock % 4294967296

/-- Difference `a - b` of two `unsigned long` values. -/
def subUL (a b : Nat) : Nat := (a % 4294967296 + 4294967296 - b % 4294967296) % 4294967296

/-- Record a call to a collaborator. -/
def emit (e : Effect) (d : Dev) : Dev := { d with trace := d.trace ++ [e] }

/-- The environment lets `dt` milliseconds pass. -/
def tick (dt : Nat) (d : Dev) : Dev := { d with clock := d.clock + dt }

/-- Blocking wait `delay(ms)` of the Arduino core: `ms` milliseconds pass. -/
def delay (ms : Nat) (d : Dev) : Dev := emit (.delay ms) (tick ms d)

/-- Call `irrecv.resume()`. -/
def resume (d : Dev) : Dev := emit .resume d

/-- Call `s.write(angleCurrent)`. -/
def servoWrite (d : Dev) : Dev := emit (.servoWrite d.angleCurrent) d

/-- Value of an `int` converted to the `uint8_t` argument of `EEPROM.write`. -/
def toByte (v : Int) : Nat := (v % 256).toNat

/-- Modelled from the spec: the EEPROM library is not among the sources; the spec describes
a store of two byte slots with `readByte`, `writeByte` and `commit`.  This is
`EEPROM.read(slot)` for slot 0 or 1; the result is a `uint8_t`. -/
def eepromRead (slot : Nat) (d : Dev) : Nat :=
  (if slot = 0 then d.eeprom0 else d.eeprom1) % 256

/-- Modelled from the spec: `EEPROM.write(slot, v)` for slot 0 or 1 (`writeByte` of the
store); the `int` argument is converted to `uint8_t`. -/
def eepromWrite (slot : Nat) (v : Int) (d : Dev) : Dev :=
  let d := if slot = 0 then { d with eeprom0 := toByte v } else { d with eeprom1 := toByte v }
  emit (.eepromWrite slot (toByte v)) d

/-- Statement `if (!EEPROM.commit()) Blink = true;` (lines 392-394, 400-402) where the commit
answers `ok`. -/
def eepromCommit (ok : Bool) (d : Dev) : Dev :=
  let d := emit (.eepromCommit ok) d
  if !ok then { d with Blink := true } else d

/-! ## Pins (lines 502-530) -/

def ledOn (d : Dev) : Dev :=
  let d := { d with ledState := false }
  emit (.ledWrite d.ledState) d

def ledOff (d : Dev) : Dev :=
  let d := { d with ledState := true }
  emit (.ledWrite d.ledState) d

def toggleLed (d : Dev) : Dev :=
  let d := resume d
  let d := { d with ledState := !d.ledState }
  emit (.ledWrite d.ledState) d

def relayOn (d : Dev) : Dev :=
  let d := { d with relayState := true }
  let d := emit (.relayWrite d.relayState) d
  { d with relayTime := millis d }

def relayOff (d : Dev) : Dev :=
  let d := { d with relayState := false }
  emit (.relayWrite d.relayState) d

/-! ## Open and close (lines 532-546) -/

def openAV (d : Dev) : Dev :=
  let d := resume d
  let d := { d with angleCurrent := d.angleOpen }
  let d := relayOn d
  let d := delay 100 d
  servoWrite d

def closeAV (d : Dev) : Dev :=
  let d := resume d
  let d := { d with angleCurrent := d.angleClosed }
  let d := relayOn d
  let d := delay 100 d
  servoWrite d

/-! ## WiFi (lines 279-342) -/

def disableWifi (d : Dev) : Dev :=
  let d := resume d
  let d := { d with Blink := false }
  let d := ledOff d
  let d := emit .wifiDisconnect d
  let d := delay 500 d
  { d with Wifienabled := false }

/-- The loop `while (WiFi.status() != WL_CONNECTED)` of `initWifi` (lines 305-323).  Each call
of `WiFi.status()` takes the next answer of the script; the result is the rest of the script
and the state on leaving the loop. -/
def connectLoop (connectingTime : Nat) : List wl_status_t → Dev → Option (List wl_status_t × Dev)
  | [], _ => none
  | [st], d => if st = .WL_CONNECTED then some ([], d) else none
  | st :: st2 :: rest, d =>
    if st = .WL_CONNECTED then some (st2 :: rest, d)
    else
      let d := delay 1000 d
      let d := toggleLed d
      if st2 = .WL_WRONG_PASSWORD then
        some (rest, { d with Blink := true, Wifienabled := false })
      else if subUL (millis d) connectingTime > 10000 then
        let d := disableWifi d
        some (rest, { d with Blink := true, Wifienabled := false })
      else connectLoop connectingTime rest (emit .yield d)

def initWifi (statuses : List wl_status_t) (d : Dev) : Option Dev :=
  let d := resume d
  if d.Wifienabled then some d
  else
    let d := emit .wifiDisconnect d
    let d := delay 100 d
    let d := emit .wifiHostname d
    let d := emit .wifiMode d
    let d := emit .thingSpeakBegin d
    if d.WIFI_PWD = "" then some { d with Blink := true }
    else
      let d := emit .wifiBegin d
      let connectingTime := millis d
      match connectLoop connectingTime statuses d with
      | none => none
      | some ([], _) => none
      | some (st :: _, d) =>
        if st = .WL_CONNECTED then some { d with Blink := false, Wifienabled := true }
        else some d

/-! ## Calibration of the limits (lines 347-439) -/

/-- One iteration of the confirmation loop (lines 354-376).  The result holds the locals
`adjustApproved` and `scanLoop` at the end of the iteration. -/
def confirmStep (loopTime : Nat) (p : Poll) (d : Dev) : Bool × Bool × Dev :=
  let d := tick p.dt d
  let r : Bool × Bool × Dev :=
    match p.decoded with
    | none => (false, true, d)
    | some res =>
      if res.decode_type ≠ .NEC then (false, true, resume d)
      else if res.value = IR_M5 then (true, false, resume d)
      else (false, false, resume d)
  let d := emit .yield r.2.2
  if subUL (millis d) loopTime > 2000 then (r.1, false, d) else (r.1, r.2.1, d)

/-- The confirmation loop `while (scanLoop)` (lines 353-377): `adjustApproved`, the polls
left over and the state on leaving the loop. -/
def confirmLoop (loopTime : Nat) : List Poll → Dev → Option (Bool × List Poll × Dev)
  | [], _ => none
  | p :: ps, d =>
    let r := confirmStep loopTime p d
    if r.2.1 then confirmLoop loopTime ps r.2.2 else some (r.1, ps, r.2.2)

/-- The `switch (results.value)` of the adjustment loop (lines 388-430): `scanLoop` and the
state after the selected case. -/
def adjustCase (commitOk : Bool) (value : Nat) (d : Dev) : Bool × Dev :=
  if value = IR_UP then
    let d := { d with angleOpen := d.angleCurrent }
    let d := eepromWrite 1 d.angleOpen d
    (false, eepromCommit commitOk d)
  else if value = IR_DOWN then
    let d := { d with angleClosed := d.angleCurrent }
    let d := eepromWrite 0 d.angleClosed d
    (false, eepromCommit commitOk d)
  else if value = IR_OFF then (false, d)
  else if value = IR_P5 then
    let d := { d with angleCurrent := d.angleCurrent + 5 }
    let d := { d with angleCurrent := constrain d.angleCurrent 0 180 }
    (true, servoWrite d)
  else if value = IR_P1 then
    let d := { d with angleCurrent := d.angleCurrent + 1 }
    let d := { d with angleCurrent := constrain d.angleCurrent 0 180 }
    (true, servoWrite d)
  else if value = IR_M1 then
    let d := { d with angleCurrent := d.angleCurrent - 1 }
    let d := { d with angleCurrent := constrain d.angleCurrent 0 180 }
    (true, servoWrite d)
  else if value = IR_M5 then
    let d := { d with angleCurrent := d.angleCurrent - 5 }
    let d := { d with angleCurrent := constrain d.angleCurrent 0 180 }
    (true, servoWrite d)
  else (true, d)

/-- One iteration of the adjustment loop (lines 384-434): `scanLoop` and the state at the
end of the iteration. -/
def adjustStep (commitOk : Bool) (p : Poll) (d : Dev) : Bool × Dev :=
  let d := tick p.dt d
  let r : Bool × Dev :=
    match p.decoded with
    | none => (true, d)
    | some res =>
      if res.decode_type ≠ .NEC then (true, resume d)
      else
        let c := adjustCase commitOk res.value d
        (c.1, resume c.2)
  (r.1, emit .yield r.2)

/-- The adjustment loop `while (scanLoop)` (lines 383-435) run over a script of polls:
`scanLoop` and the state when the loop is left or the script ends. -/
def adjustLoop (commitOk : Bool) : List Poll → Dev → Bool × Dev
  | [], d => (true, d)
  | p :: ps, d =>
    let r := adjustStep commitOk p d
    if r.1 then adjustLoop commitOk ps r.2 else r

/-- Entry of the adjustment phase (lines 379-382). -/
def adjustEnter (d : Dev) : Dev :=
  let d := relayOn d
  let d := { d with angleCurrent := 90 }
  servoWrite d

def changeLimits (polls : List Poll) (commitOk : Bool) (d : Dev) : Option Dev :=
  let d := resume d
  let d := ledOn d
  let loopTime := millis d
  match confirmLoop loopTime polls d with
  | none => none
  | some (adjustApproved, rest, d) =>
    if adjustApproved then
      let r := adjustLoop commitOk rest (adjustEnter d)
      if r.1 then none else some (ledOff (relayOff r.2))
    else some (ledOff d)

/-! ## Climate control flag (lines 444-471) -/

/-- The loop `while (scanLoop)` of `changeEnvControl` (lines 448-469). -/
def envLoop : List Poll → Dev → Option Dev
  | [], _ => none
  | p :: ps, d =>
    let d := tick p.dt d
    match p.decoded with
    | none => envLoop ps (emit .yield d)
    | some res =>
      if res.decode_type ≠ .NEC then envLoop ps (emit .yield (resume d))
      else if res.value = IR_ON then
        some (emit .yield (resume { d with envControl := true }))
      else if res.value = IR_OFF then
        some (emit .yield (resume { d with envControl := false }))
      else envLoop ps (emit .yield (resume d))

def changeEnvControl (polls : List Poll) (d : Dev) : Option Dev :=
  let d := resume d
  let d := ledOn d
  (envLoop polls d).map ledOff

/-! ## Startup and main loop (lines 179-277) -/

/-- Answers of the environment during one iteration of `loop`. -/
structure LoopIn where
  /-- Time passed since the previous iteration. -/
  dt : Nat
  /-- Answer of `WiFi.isConnected()`. -/
  connected : Bool
  /-- Answer of `irrecv.decode(&results)`. -/
  decoded : Option decode_results
  /-- Decoder polls made by a handler with a loop of its own. -/
  polls : List Poll
  /-- Answers of `WiFi.status()`. -/
  statuses : List wl_status_t
  /-- Answer of `EEPROM.commit()`. -/
  commitOk : Bool
  deriving DecidableEq, Repr

/-- Values of the globals at power-on (lines 72-74, 164-177), with the store holding the
bytes `e0`, `e1` and the password `pwd`. -/
def powerOn (e0 e1 : Nat) (pwd : String) : Dev :=
  { angleCurrent := 90, angleClosed := 80, angleOpen := 100, WIFI_PWD := pwd,
    ledLastMillis := 0, relayTime := 0, Blink := false, envControl := false,
    Wifienabled := false, ledState := false, relayState := false,
    clock := 0, eeprom0 := e0, eeprom1 := e1, trace := [] }

/-- Function `setup` (lines 179-214), for a start whose sanity check passes. -/
def setup (d : Dev) : Dev :=
  let d := ledOff d
  let d := emit .servoAttach d
  let d := emit .irEnable d
  let d := emit .wifiSoftAPdisconnect d
  let d := emit .wifiMode d
  let d := emit .wifiDisconnect d
  let d := delay 100 d
  let d := { d with angleClosed := eepromRead 0 d }
  { d with angleOpen := eepromRead 1 d }

/-- Body of `case IR_UP` in `loop` (lines 239-243). -/
def caseUp (d : Dev) : Dev :=
  let d := relayOn d
  let d := { d with angleCurrent := d.angleCurrent + 5 }
  let d := { d with angleCurrent := constrain d.angleCurrent d.angleClosed d.angleOpen }
  let d := servoWrite d
  { d with relayTime := millis d }

/-- Body of `case IR_DOWN` in `loop` (lines 246-250). -/
def caseDown (d : Dev) : Dev :=
  let d := relayOn d
  let d := { d with angleCurrent := d.angleCurrent - 5 }
  let d := { d with angleCurrent := constrain d.angleCurrent d.angleClosed d.angleOpen }
  let d := servoWrite d
  { d with relayTime := millis d }

/-- The `switch (results.value)` of `loop` (lines 225-261). -/
def dispatchCase (value : Nat) (i : LoopIn) (d : Dev) : Option Dev :=
  if value = IR_ON then initWifi i.statuses d
  else if value = IR_OFF then some (disableWifi d)
  else if value = IR_GREEN then some (openAV d)
  else if value = IR_RED then some (closeAV d)
  else if value = IR_UP then some (caseUp d)
  else if value = IR_DOWN then some (caseDown d)
  else if value = IR_WHITE then changeEnvControl i.polls d
  else if value = IR_BLUE then changeLimits i.polls i.commitOk d
  else some d

/-- Handling of one decode event (lines 223-265): dispatch, then `irrecv.resume()`. -/
def dispatch (res : decode_results) (i : LoopIn) (d : Dev) : Option Dev :=
  (if res.decode_type = .NEC then dispatchCase res.value i d else some d).map resume

/-- Relay switched off when the servo is idle (lines 268-270). -/
def relayAutoOff (d : Dev) : Dev :=
  if d.relayState && decide (subUL (millis d) d.relayTime > 3000) then relayOff d else d

/-- Blinking of the LED while `Blink` is set (lines 273-276). -/
def blinkLed (d : Dev) : Dev :=
  if d.Blink && decide (subUL (millis d) d.ledLastMillis > LED_BLINK_INTERVAL_MS) then
    let d := toggleLed d
    { d with ledLastMillis := millis d }
  else d

/-- Reconnection of a lost link (lines 217-219); `connected` answers `WiFi.isConnected()`. -/
def maintainWifi (connected : Bool) (d : Dev) : Dev :=
  if d.Wifienabled && !connected then emit .wifiReconnect d else d

/-- One iteration of `loop` (lines 216-277). -/
def loop (i : LoopIn) (d : Dev) : Option Dev :=
  let d := maintainWifi i.connected (tick i.dt d)
  let r := match i.decoded with
    | none => some d
    | some res => dispatch res i d
  r.map fun d => blinkLed (relayAutoOff d)

/-- Successive iterations of `loop`, one for each element of the script. -/
def runLoop : List LoopIn → Dev → Option Dev
  | [], d => some d
  | i :: is, d => (loop i d).bind (runLoop is)

/-! ## Notions used in the statements -/

/-- An iteration of `loop` that decodes the NEC code UP or DOWN. -/
def LoopIn.isMove (i : LoopIn) : Prop :=
  i.decoded = some ⟨.NEC, IR_UP⟩ ∨ i.decoded = some ⟨.NEC, IR_DOWN⟩

instance (i : LoopIn) : Decidable i.isMove := by
  unfold LoopIn.isMove
  infer_instance

/-- A decode event of the main loop that moves the servo: NEC code UP, DOWN, GREEN (open)
or RED (close). -/
def isMotion (res : decode_results) : Prop :=
  res.decode_type = .NEC ∧
    (res.value = IR_UP ∨ res.value = IR_DOWN ∨ res.value = IR_GREEN ∨ res.value = IR_RED)

/-- A device after `setup` with the bytes 80 and 100 in the store, used in examples. -/
def sampleDev : Dev := setup (powerOn 80 100 "pw")

/-- Calls that leave servo, relay and store alone. -/
def Effect.isQuiet : Effect → Bool
  | .servoWrite _ => false
  | .relayWrite _ => false
  | .eepromWrite _ _ => false
  | .eepromCommit _ => false
  | _ => true

/-- From `d` to `d'` the angles, the relay, the store and the password are unchanged and
no call to servo, relay or store has been made. -/
def Quiet (d d' : Dev) : Prop :=
  d'.angleCurrent = d.angleCurrent ∧ d'.angleClosed = d.angleClosed ∧
  d'.angleOpen = d.angleOpen ∧ d'.relayState = d.relayState ∧
  d'.relayTime = d.relayTime ∧ d'.eeprom0 = d.eeprom0 ∧ d'.eeprom1 = d.eeprom1 ∧
  d'.WIFI_PWD = d.WIFI_PWD ∧
  ∃ es, d'.trace = d.trace ++ es ∧ ∀ e ∈ es, e.isQuiet = true

/-- Both limits lie in `[0, m]`. -/
def LimitsWithin (m : Int) (d : Dev) : Prop :=
  0 ≤ d.angleClosed ∧ d.angleClosed ≤ m ∧ 0 ≤ d.angleOpen ∧ d.angleOpen ≤ m

/-- States of the sketch between two iterations of `loop`, after a power-on with the bytes
`e0`, `e1` in the store and the password `pwd`. -/
inductive Reachable (e0 e1 : Nat) (pwd : String) : Dev → Prop where
  | start : Reachable e0 e1 pwd (setup (powerOn e0 e1 pwd))
  | step {d d' : Dev} (i : LoopIn) :
      Reachable e0 e1 pwd d → loop i d = some d' → Reachable e0 e1 pwd d'

/-- The working angle lies in `[0, 180]`. -/
def AngleOk (d : Dev) : Prop := 0 ≤ d.angleCurrent ∧ d.angleCurrent ≤ 180

/-- The poll delivers a message of the accepted protocol (NEC). -/
def Poll.isNEC (p : Poll) : Bool :=
  match p.decoded with
  | some res => decide (res.decode_type = .NEC)
  | none => false

/-- From `d` to `d'` the trace has only grown. -/
def TraceExt (d d' : Dev) : Prop := ∃ es, d'.trace = d.trace ++ es

/-- A decode event for which the `switch` of `loop` calls a function of the sketch: NEC code
ON, OFF, GREEN (open), RED (close), WHITE (climate flag) or BLUE (calibration). -/
def callsHandler (res : decode_results) : Prop :=
  res.decode_type = .NEC ∧
    (res.value = IR_ON ∨ res.value = IR_OFF ∨ res.value = IR_GREEN ∨ res.value = IR_RED ∨
      res.value = IR_WHITE ∨ res.value = IR_BLUE)

instance (res : decode_results) : Decidable (callsHandler res) := by
  unfold callsHandler
  infer_instance

/-- Spec-level clamp of `x` to `[lo, hi]`. -/
def clamp (x lo hi : Int) : Int := max lo (min x hi)

/-- Answers of the environment for an iteration in which nothing is received. -/
def idleIn : LoopIn :=
  { dt := 0, connected := true, decoded := none, polls := [], statuses := [], commitOk := true }

/-- The code `v` is one of the eight codes of the `switch` of `loop` (lines 226-258). -/
def isDispatched (v : Nat) : Prop :=
  v = IR_ON ∨ v = IR_OFF ∨ v = IR_GREEN ∨ v = IR_RED ∨ v = IR_UP ∨ v = IR_DOWN ∨
    v = IR_WHITE ∨ v = IR_BLUE

instance (v : Nat) : Decidable (isDispatched v) := by
  unfold isDispatched
  infer_instance

/-- Calls to the store: `EEPROM.write` and `EEPROM.commit`. -/
def Effect.isStore : Effect → Bool
  | .eepromWrite _ _ => true
  | .eepromCommit _ => true
  | _ => false

/-- From `d` to `d'` the limits and the two store slots are unchanged and no call to the
store has been made. -/
def NoStore (d d' : Dev) : Prop :=
  d'.angleClosed = d.angleClosed ∧ d'.angleOpen = d.angleOpen ∧
  d'.eeprom0 = d.eeprom0 ∧ d'.eeprom1 = d.eeprom1 ∧
  ∃ es, d'.trace = d.trace ++ es ∧ ∀ e ∈ es, e.isStore = false

/-- Modelled from the spec: a power cycle of the device.  The store keeps its two bytes (as
they are after a successful `commit`), every global starts again from its initial value, and
`setup` runs. -/
def restart (d : Dev) : Dev := setup (powerOn d.eeprom0 d.eeprom1 d.WIFI_PWD)

/-- An iteration of `loop` that starts a calibration session (NEC code BLUE). -/
def LoopIn.isCalibrate (i : LoopIn) : Prop := i.decoded = some ⟨.NEC, IR_BLUE⟩

instance (i : LoopIn) : Decidable i.isCalibrate := by
  unfold LoopIn.isCalibrate
  infer_instance

/-- An iteration of `loop` that handles a motion command: NEC code UP, DOWN, GREEN or RED. -/
def LoopIn.movesServo (i : LoopIn) : Prop :=
  i.decoded = some ⟨.NEC, IR_UP⟩ ∨ i.decoded = some ⟨.NEC, IR_DOWN⟩ ∨
    i.decoded = some ⟨.NEC, IR_GREEN⟩ ∨ i.decoded = some ⟨.NEC, IR_RED⟩

instance (i : LoopIn) : Decidable i.movesServo := by
  unfold LoopIn.movesServo
  infer_instance

/-- The angle `angleCurrent` lies between the two limits. -/
def InRange (d : Dev) : Prop :=
  d.angleClosed ≤ d.angleCurrent ∧ d.angleCurrent ≤ d.angleOpen

/-- A device after `setup` and one aborted calibration session (confirm, five steps of +5,
cancel): limits 80 and 100, angle 115. -/
def abortedDev : Dev :=
  (changeLimits
    [⟨5, some ⟨.NEC, IR_M5⟩⟩, ⟨5, some ⟨.NEC, IR_P5⟩⟩, ⟨5, some ⟨.NEC, IR_P5⟩⟩,
      ⟨5, some ⟨.NEC, IR_P5⟩⟩, ⟨5, some ⟨.NEC, IR_P5⟩⟩, ⟨5, some ⟨.NEC, IR_P5⟩⟩,
      ⟨5, some ⟨.NEC, IR_OFF⟩⟩] true sampleDev).getD sampleDev

/-- Level of the relay pin after the calls `es`, when it was `r` before them. -/
def relayAfter (r : Bool) : List Effect → Bool
  | [] => r
  | .relayWrite b :: es => relayAfter b es
  | _ :: es => relayAfter r es

/-- Every servo command `s.write(a)` among the calls `es` satisfies `Q l a`, where `l` is the
level of the relay pin at the moment of that command; the level is `r` before the first
call. -/
def servoAll (Q : Bool → Int → Bool) (r : Bool) : List Effect → Bool
  | [] => true
  | .servoWrite a :: es => Q r a && servoAll Q r es
  | .relayWrite b :: es => servoAll Q b es
  | _ :: es => servoAll Q r es

/-- From `d` to `d'` calls have been added to the trace, every servo command among them
satisfies `Q`, and `relayState` follows the level of the relay pin. -/
def Along (Q : Bool → Int → Bool) (d d' : Dev) : Prop :=
  ∃ es, d'.trace = d.trace ++ es ∧ servoAll Q d.relayState es = true ∧
    relayAfter d.relayState es = d'.relayState

/-- The relay is engaged when the servo command is issued. -/
def relayEngaged : Bool → Int → Bool := fun l _ => l

/-- The angle of the servo command lies in `[0, 180]`. -/
def angleInRange : Bool → Int → Bool := fun _ a => decide (0 ≤ a ∧ a ≤ 180)

/-- A device after `setup` and one UP command, used in examples. -/
def movedDev : Dev :=
  (loop { idleIn with decoded := some ⟨.NEC, IR_UP⟩ } sampleDev).getD sampleDev

/-- Answers of `WiFi.status()` during rounds of the loop of `initWifi`: each round takes one
answer for the loop condition (line 305) and one for the test inside the loop (line 309). -/
def flatRounds : List (wl_status_t × wl_status_t) → List wl_status_t
  | [] => []
  | r :: rs => r.1 :: r.2 :: flatRounds rs

/-- State of `initWifi` at line 304, after `WiFi.begin`, when WiFi is disabled and the
password is not empty. -/
def wifiBegun (d : Dev) : Dev :=
  emit .wifiBegin (emit .thingSpeakBegin (emit .wifiMode (emit .wifiHostname
    (delay 100 (emit .wifiDisconnect (resume d))))))

/-! ## Frame lemmas -/

theorem relayAutoOff_angles (d : Dev) :
    (relayAutoOff d).angleCurrent = d.angleCurrent ∧
    (relayAutoOff d).angleClosed = d.angleClosed ∧
    (relayAutoOff d).angleOpen = d.angleOpen := by
  unfold relayAutoOff
  split <;> simp [relayOff, emit]

theorem blinkLed_angles (d : Dev) :
    (blinkLed d).angleCurrent = d.angleCurrent ∧
    (blinkLed d).angleClosed = d.angleClosed ∧
    (blinkLed d).angleOpen = d.angleOpen := by
  unfold blinkLed
  split <;> simp [toggleLed, resume, emit]

theorem maintainWifi_angles (c : Bool) (d : Dev) :
    (maintainWifi c d).angleCurrent = d.angleCurrent ∧
    (maintainWifi c d).angleClosed = d.angleClosed ∧
    (maintainWifi c d).angleOpen = d.angleOpen := by
  unfold maintainWifi
  split <;> simp [emit]

theorem constrain_mem (amt low high : Int) (h : low ≤ high) :
    low ≤ constrain amt low high ∧ constrain amt low high ≤ high := by
  unfold constrain
  split_ifs <;> omega

/-! ## UP and DOWN in the main loop -/

theorem loop_idle (i : LoopIn) (d : Dev) (h : i.decoded = none) :
    ∃ d', loop i d = some d' ∧ d'.angleCurrent = d.angleCurrent ∧
      d'.angleClosed = d.angleClosed ∧ d'.angleOpen = d.angleOpen := by
  refine ⟨_, by simp only [loop, h, Option.map_some']; rfl, ?_⟩
  simp [blinkLed_angles, relayAutoOff_angles, maintainWifi_angles, tick]

theorem loop_move (i : LoopIn) (d : Dev) (h : i.isMove) (hlim : d.angleClosed ≤ d.angleOpen) :
    ∃ d', loop i d = some d' ∧ d'.angleClosed = d.angleClosed ∧ d'.angleOpen = d.angleOpen ∧
      d.angleClosed ≤ d'.angleCurrent ∧ d'.angleCurrent ≤ d.angleOpen := by
  rcases h with h | h
  · refine ⟨_, by simp only [loop, h, dispatch, dispatchCase, Option.map_some']; rfl, ?_⟩
    simp [blinkLed_angles, relayAutoOff_angles, maintainWifi_angles, tick, resume, emit,
      caseUp, relayOn, servoWrite]
    exact constrain_mem _ _ _ hlim
  · refine ⟨_, by simp only [loop, h, dispatch, dispatchCase, Option.map_some']; rfl, ?_⟩
    simp [blinkLed_angles, relayAutoOff_angles, maintainWifi_angles, tick, resume, emit,
      caseDown, relayOn, servoWrite]
    exact constrain_mem _ _ _ hlim

theorem runLoop_moves (is : List LoopIn) :
    ∀ d : Dev, d.angleClosed ≤ d.angleOpen →
      (∀ i ∈ is, i.decoded = none ∨ i.isMove) →
      ∃ d', runLoop is d = some d' ∧ d'.angleClosed = d.angleClosed ∧
        d'.angleOpen = d.angleOpen ∧
        (((d.angleClosed ≤ d.angleCurrent ∧ d.angleCurrent ≤ d.angleOpen) ∨
            ∃ i ∈ is, i.isMove) →
          d.angleClosed ≤ d'.angleCurrent ∧ d'.angleCurrent ≤ d.angleOpen) := by
  induction is with
  | nil =>
    intro d _ _
    refine ⟨d, rfl, rfl, rfl, ?_⟩
    rintro (h | ⟨i, hi, _⟩)
    · exact h
    · cases hi
  | cons i is ih =>
    intro d hlim hseq
    have htail : ∀ j ∈ is, j.decoded = none ∨ j.isMove :=
      fun j hj => hseq j (List.mem_cons_of_mem _ hj)
    rcases hseq i (List.mem_cons_self _ _) with hi | hi
    · obtain ⟨d1, h1, hcur, hc, ho⟩ := loop_idle i d hi
      obtain ⟨d2, h2, hc2, ho2, hr⟩ := ih d1 (by rw [hc, ho]; exact hlim) htail
      refine ⟨d2, by simp [runLoop, h1, h2], by rw [hc2, hc], by rw [ho2, ho], ?_⟩
      intro h
      rw [hc, ho, hcur] at hr
      apply hr
      rcases h with h | ⟨j, hj, hm⟩
      · exact Or.inl h
      · rcases List.mem_cons.1 hj with rfl | hj
        · rcases hm with hm | hm <;> rw [hi] at hm <;> cases hm
        · exact Or.inr ⟨j, hj, hm⟩
    · obtain ⟨d1, h1, hc, ho, hr1⟩ := loop_move i d hi hlim
      obtain ⟨d2, h2, hc2, ho2, hr⟩ := ih d1 (by rw [hc, ho]; exact hlim) htail
      refine ⟨d2, by simp [runLoop, h1, h2], by rw [hc2, hc], by rw [ho2, ho], ?_⟩
      intro _
      rw [hc, ho] at hr
      exact hr (Or.inl hr1)

/-- C1: with `angleClosed ≤ angleOpen`, run any script of iterations of `loop` that are idle
or decode UP or DOWN; after every initial part of the script in which a command has been
handled, `angleCurrent` lies between the two limits (which are unchanged). -/
theorem C1_updown_within_limits (d : Dev) (is : List LoopIn)
    (hlim : d.angleClosed ≤ d.angleOpen)
    (hseq : ∀ i ∈ is, i.decoded = none ∨ i.isMove)
    (n : Nat) (hn : ∃ i ∈ is.take n, i.isMove) :
    ∃ d', runLoop (is.take n) d = some d' ∧
      d'.angleClosed = d.angleClosed ∧ d'.angleOpen = d.angleOpen ∧
      d.angleClosed ≤ d'.angleCurrent ∧ d'.angleCurrent ≤ d.angleOpen := by
  obtain ⟨d', h, hc, ho, hr⟩ :=
    runLoop_moves (is.take n) d hlim (fun i hi => hseq i (List.mem_of_mem_take hi))
  exact ⟨d', h, hc, ho, hr (Or.inr hn)⟩

/-- C1 witness: limits 80 and 100, angle 150 at the start, then UP, idle, DOWN. -/
theorem C1_updown_within_limits_witness :
    ∃ d', runLoop
        ([⟨10, true, some ⟨.NEC, IR_UP⟩, [], [], true⟩, ⟨10, true, none, [], [], true⟩,
          ⟨10, true, some ⟨.NEC, IR_DOWN⟩, [], [], true⟩].take 3)
        { setup (powerOn 80 100 "pw") with angleCurrent := 150 } = some d' ∧
      d'.angleClosed = { setup (powerOn 80 100 "pw") with angleCurrent := 150 }.angleClosed ∧
      d'.angleOpen = { setup (powerOn 80 100 "pw") with angleCurrent := 150 }.angleOpen ∧
      { setup (powerOn 80 100 "pw") with angleCurrent := 150 }.angleClosed ≤ d'.angleCurrent ∧
      d'.angleCurrent ≤ { setup (powerOn 80 100 "pw") with angleCurrent := 150 }.angleOpen :=
  C1_updown_within_limits { setup (powerOn 80 100 "pw") with angleCurrent := 150 }
    [⟨10, true, some ⟨.NEC, IR_UP⟩, [], [], true⟩, ⟨10, true, none, [], [], true⟩,
      ⟨10, true, some ⟨.NEC, IR_DOWN⟩, [], [], true⟩]
    (by decide) (by decide) 3 (by decide)

/-! ## Relay idle timer -/

theorem relayAutoOff_relayState (d : Dev) (h : d.relayState = true) :
    (relayAutoOff d).relayState = false ↔ 3000 < subUL (millis d) d.relayTime := by
  unfold relayAutoOff
  by_cases hc : 3000 < subUL (millis d) d.relayTime
  · simp [h, hc, relayOff, emit]
  · simp [h, hc]

theorem dispatch_motion (res : decode_results) (i : LoopIn) (d : Dev) (h : isMotion res) :
    ∃ d', dispatch res i d = some d' ∧ d'.relayState = true ∧ d'.relayTime = millis d ∧
      (d'.clock = d.clock ∨ d'.clock = d.clock + 100) := by
  obtain ⟨hn, hv | hv | hv | hv⟩ := h
  all_goals
    refine ⟨_, by simp only [dispatch, dispatchCase, hn, hv, Option.map_some']; rfl, ?_⟩
    simp [resume, emit, caseUp, caseDown, openAV, closeAV, relayOn, servoWrite, delay, tick,
      millis]

/-- C2 as stated fails: the relay was engaged at clock 100 and the housekeeping step runs
exactly 3000 ms later; the claim asks for the relay to be disengaged, the step leaves it
engaged. -/
theorem C2_counterexample :
    (tick 3000 (relayOn sampleDev)).relayState = true ∧
    subUL (millis (tick 3000 (relayOn sampleDev))) (tick 3000 (relayOn sampleDev)).relayTime
      = 3000 ∧
    (relayAutoOff (tick 3000 (relayOn sampleDev))).relayState = true := by
  decide

/-- C2 (amended): with the relay engaged, the housekeeping step `relayAutoOff` disengages it
if and only if MORE than 3000 ms (difference of the `unsigned long` readings) have passed
since `relayTime`.  A motion command (UP, DOWN, open, close) handled in that state leaves the
relay engaged with `relayTime` set to the time of the command, so that a later housekeeping
step disengages the relay if and only if more than 3000 ms have passed since that command. -/
theorem C2_relay_idle_window (d : Dev) (h : d.relayState = true) :
    ((relayAutoOff d).relayState = false ↔ 3000 < subUL (millis d) d.relayTime) ∧
    ∀ (res : decode_results) (i : LoopIn), isMotion res →
      ∃ d', dispatch res i d = some d' ∧ d'.relayState = true ∧ d'.relayTime = millis d ∧
        d.clock ≤ d'.clock ∧
        ∀ dt, d'.clock + dt - d.clock < 4294967296 →
          ((relayAutoOff (tick dt d')).relayState = false ↔
            3000 < d'.clock + dt - d.clock) := by
  refine ⟨relayAutoOff_relayState d h, ?_⟩
  intro res i hm
  obtain ⟨d', hd, hr, ht, hck⟩ := dispatch_motion res i d hm
  refine ⟨d', hd, hr, ht, by omega, ?_⟩
  intro dt hdt
  rw [relayAutoOff_relayState _ (by simpa [tick] using hr)]
  simp only [tick, millis, subUL, ht]
  omega

/-- C2 witness: the relay engaged at clock 100, housekeeping at clock 3101. -/
theorem C2_relay_idle_window_witness :
    (tick 3001 (relayOn sampleDev)).relayState = true ∧
    (relayAutoOff (tick 3001 (relayOn sampleDev))).relayState = false :=
  ⟨by decide,
    ((C2_relay_idle_window (tick 3001 (relayOn sampleDev)) (by decide)).1).2 (by decide)⟩

/-! ## Steps that leave servo, relay and store alone -/

theorem Quiet.same (d : Dev) : Quiet d d :=
  ⟨rfl, rfl, rfl, rfl, rfl, rfl, rfl, rfl, [], by simp, by simp⟩

theorem Quiet.andThen {a b c : Dev} (h1 : Quiet a b) (h2 : Quiet b c) : Quiet a c := by
  obtain ⟨a1, a2, a3, a4, a5, a6, a7, a8, es, hes, hq⟩ := h1
  obtain ⟨b1, b2, b3, b4, b5, b6, b7, b8, fs, hfs, hr⟩ := h2
  refine ⟨b1.trans a1, b2.trans a2, b3.trans a3, b4.trans a4, b5.trans a5, b6.trans a6,
    b7.trans a7, b8.trans a8, es ++ fs, by rw [hfs, hes, List.append_assoc], ?_⟩
  intro e he
  rcases List.mem_append.1 he with he | he
  · exact hq e he
  · exact hr e he

theorem quiet_emit (e : Effect) (d : Dev) (h : e.isQuiet = true) : Quiet d (emit e d) :=
  ⟨rfl, rfl, rfl, rfl, rfl, rfl, rfl, rfl, [e], rfl, by simpa using h⟩

theorem quiet_tick (dt : Nat) (d : Dev) : Quiet d (tick dt d) :=
  ⟨rfl, rfl, rfl, rfl, rfl, rfl, rfl, rfl, [], by simp [tick], by simp⟩

theorem quiet_resume (d : Dev) : Quiet d (resume d) := quiet_emit .resume d rfl

theorem quiet_yield (d : Dev) : Quiet d (emit .yield d) := quiet_emit .yield d rfl

theorem quiet_delay (ms : Nat) (d : Dev) : Quiet d (delay ms d) :=
  (quiet_tick ms d).andThen (quiet_emit (.delay ms) _ rfl)

theorem quiet_ledOn (d : Dev) : Quiet d (ledOn d) :=
  ⟨rfl, rfl, rfl, rfl, rfl, rfl, rfl, rfl, [.ledWrite false], rfl, by simp [Effect.isQuiet]⟩

theorem quiet_ledOff (d : Dev) : Quiet d (ledOff d) :=
  ⟨rfl, rfl, rfl, rfl, rfl, rfl, rfl, rfl, [.ledWrite true], rfl, by simp [Effect.isQuiet]⟩

theorem quiet_toggleLed (d : Dev) : Quiet d (toggleLed d) :=
  ⟨rfl, rfl, rfl, rfl, rfl, rfl, rfl, rfl, [.resume, .ledWrite (!d.ledState)],
    by simp [toggleLed, resume, emit], by simp [Effect.isQuiet]⟩

theorem quiet_of_fields {d d' : Dev} (h1 : d'.angleCurrent = d.angleCurrent)
    (h2 : d'.angleClosed = d.angleClosed) (h3 : d'.angleOpen = d.angleOpen)
    (h4 : d'.relayState = d.relayState) (h5 : d'.relayTime = d.relayTime)
    (h6 : d'.eeprom0 = d.eeprom0) (h7 : d'.eeprom1 = d.eeprom1)
    (h8 : d'.WIFI_PWD = d.WIFI_PWD) (h9 : d'.trace = d.trace) : Quiet d d' :=
  ⟨h1, h2, h3, h4, h5, h6, h7, h8, [], by simp [h9], by simp⟩

theorem quiet_disableWifi_body (d : Dev) : Quiet (resume d) (disableWifi d) := by
  unfold disableWifi
  exact (quiet_of_fields rfl rfl rfl rfl rfl rfl rfl rfl rfl).andThen <| (quiet_ledOff _).andThen <|
    (quiet_emit .wifiDisconnect _ rfl).andThen <| (quiet_delay _ _).andThen
      (quiet_of_fields rfl rfl rfl rfl rfl rfl rfl rfl rfl)

theorem quiet_disableWifi (d : Dev) : Quiet d (disableWifi d) :=
  (quiet_resume d).andThen (quiet_disableWifi_body d)

theorem quiet_connectLoop (t : Nat) :
    ∀ (n : Nat) (sts : List wl_status_t), sts.length ≤ n →
      ∀ (d : Dev) (rest : List wl_status_t) (d' : Dev),
        connectLoop t sts d = some (rest, d') → Quiet d d' := by
  intro n
  induction n with
  | zero =>
    intro sts hl d rest d' h
    cases sts with
    | nil => simp [connectLoop] at h
    | cons _ _ => simp at hl
  | succ n ih =>
    intro sts hl d rest d' h
    match sts, hl, h with
    | [], _, h => simp [connectLoop] at h
    | [st], _, h =>
      simp only [connectLoop] at h
      split_ifs at h
      simp only [Option.some.injEq, Prod.mk.injEq] at h
      rw [← h.2]
      exact Quiet.same d
    | st :: st2 :: rest0, hl, h =>
      simp only [connectLoop] at h
      have hq : Quiet d (toggleLed (delay 1000 d)) :=
        (quiet_delay _ _).andThen (quiet_toggleLed _)
      split_ifs at h
      · simp only [Option.some.injEq, Prod.mk.injEq] at h
        rw [← h.2]
        exact Quiet.same d
      · simp only [Option.some.injEq, Prod.mk.injEq] at h
        rw [← h.2]
        exact hq.andThen (quiet_of_fields rfl rfl rfl rfl rfl rfl rfl rfl rfl)
      · simp only [Option.some.injEq, Prod.mk.injEq] at h
        rw [← h.2]
        exact hq.andThen <| (quiet_disableWifi _).andThen
          (quiet_of_fields rfl rfl rfl rfl rfl rfl rfl rfl rfl)
      · refine (hq.andThen (quiet_yield _)).andThen (ih rest0 ?_ _ rest d' h)
        simp only [List.length_cons] at hl
        omega

theorem quiet_initWifi_body (sts : List wl_status_t) (d d' : Dev)
    (h : initWifi sts d = some d') : Quiet (resume d) d' := by
  unfold initWifi at h
  have hpre : Quiet (resume d) (emit .thingSpeakBegin (emit .wifiMode (emit .wifiHostname
      (delay 100 (emit .wifiDisconnect (resume d)))))) :=
    (quiet_emit .wifiDisconnect _ rfl).andThen <|
      (quiet_delay _ _).andThen <| (quiet_emit .wifiHostname _ rfl).andThen <|
      (quiet_emit .wifiMode _ rfl).andThen (quiet_emit .thingSpeakBegin _ rfl)
  simp only at h
  split_ifs at h with h1 h2
  · simp only [Option.some.injEq] at h
    rw [← h]
    exact Quiet.same _
  · simp only [Option.some.injEq] at h
    rw [← h]
    exact hpre.andThen (quiet_of_fields rfl rfl rfl rfl rfl rfl rfl rfl rfl)
  · split at h
    · cases h
    · cases h
    · rename_i st rest c heq
      have hc := quiet_connectLoop _ _ _ (Nat.le_refl _) _ _ _ heq
      have hq := (hpre.andThen (quiet_emit .wifiBegin _ rfl)).andThen hc
      split_ifs at h
      · simp only [Option.some.injEq] at h
        rw [← h]
        exact hq.andThen (quiet_of_fields rfl rfl rfl rfl rfl rfl rfl rfl rfl)
      · simp only [Option.some.injEq] at h
        rw [← h]
        exact hq

theorem quiet_setEnvControl (b : Bool) (d : Dev) : Quiet d { d with envControl := b } :=
  quiet_of_fields rfl rfl rfl rfl rfl rfl rfl rfl rfl

theorem quiet_initWifi (sts : List wl_status_t) (d d' : Dev) (h : initWifi sts d = some d') :
    Quiet d d' :=
  (quiet_resume d).andThen (quiet_initWifi_body sts d d' h)

theorem quiet_envLoop (ps : List Poll) :
    ∀ d d' : Dev, envLoop ps d = some d' → Quiet d d' := by
  induction ps with
  | nil => intro d d' h; simp [envLoop] at h
  | cons p ps ih =>
    intro d d' h
    simp only [envLoop] at h
    split at h
    · exact ((quiet_tick _ _).andThen (quiet_yield _)).andThen (ih _ _ h)
    · split_ifs at h
      · exact ((quiet_tick _ _).andThen ((quiet_resume _).andThen (quiet_yield _))).andThen (ih _ _ h)
      · simp only [Option.some.injEq] at h
        rw [← h]
        exact (quiet_tick p.dt d).andThen <| (quiet_setEnvControl _ _).andThen <|
          (quiet_resume _).andThen (quiet_yield _)
      · simp only [Option.some.injEq] at h
        rw [← h]
        exact (quiet_tick p.dt d).andThen <| (quiet_setEnvControl _ _).andThen <|
          (quiet_resume _).andThen (quiet_yield _)
      · exact ((quiet_tick _ _).andThen ((quiet_resume _).andThen (quiet_yield _))).andThen (ih _ _ h)

theorem quiet_changeEnvControl_body (ps : List Poll) (d d' : Dev)
    (h : changeEnvControl ps d = some d') : Quiet (resume d) d' := by
  unfold changeEnvControl at h
  simp only [Option.map_eq_some'] at h
  obtain ⟨c, hc, rfl⟩ := h
  exact (quiet_ledOn _).andThen ((quiet_envLoop _ _ _ hc).andThen (quiet_ledOff _))

theorem quiet_changeEnvControl (ps : List Poll) (d d' : Dev)
    (h : changeEnvControl ps d = some d') : Quiet d d' :=
  (quiet_resume d).andThen (quiet_changeEnvControl_body ps d d' h)

theorem quiet_confirmStep (t : Nat) (p : Poll) (d : Dev) :
    Quiet d (confirmStep t p d).2.2 := by
  unfold confirmStep
  have h0 := quiet_tick p.dt d
  cases hp : p.decoded with
  | none =>
    simp only
    split_ifs <;> exact h0.andThen (quiet_yield _)
  | some res =>
    simp only
    split_ifs <;> exact h0.andThen ((quiet_resume _).andThen (quiet_yield _))

theorem quiet_confirmLoop (t : Nat) (ps : List Poll) :
    ∀ (d : Dev) (a : Bool) (rest : List Poll) (d' : Dev),
      confirmLoop t ps d = some (a, rest, d') → Quiet d d' := by
  induction ps with
  | nil => intro d a rest d' h; simp [confirmLoop] at h
  | cons p ps ih =>
    intro d a rest d' h
    simp only [confirmLoop] at h
    split_ifs at h
    · exact (quiet_confirmStep t p d).andThen (ih _ _ _ _ h)
    · simp only [Option.some.injEq, Prod.mk.injEq] at h
      rw [← h.2.2]
      exact quiet_confirmStep t p d

theorem quiet_maintainWifi (c : Bool) (d : Dev) : Quiet d (maintainWifi c d) := by
  unfold maintainWifi
  split_ifs
  · exact quiet_emit .wifiReconnect _ rfl
  · exact Quiet.same d

theorem quiet_blinkLed (d : Dev) : Quiet d (blinkLed d) := by
  unfold blinkLed
  split_ifs
  · exact (quiet_toggleLed d).andThen (quiet_of_fields rfl rfl rfl rfl rfl rfl rfl rfl rfl)
  · exact Quiet.same d

/-! ## Adjustment phase: range of the working angle and of the limits -/


theorem adjustCase_inv (m : Int) (hm : 180 ≤ m) (ok : Bool) (v : Nat) (d : Dev)
    (ha : AngleOk d) :
    AngleOk (adjustCase ok v d).2 ∧
      (LimitsWithin m d → LimitsWithin m (adjustCase ok v d).2) := by
  obtain ⟨h0, h1⟩ := ha
  have c1 := constrain_mem (d.angleCurrent + 5) 0 180 (by omega)
  have c2 := constrain_mem (d.angleCurrent + 1) 0 180 (by omega)
  have c3 := constrain_mem (d.angleCurrent - 1) 0 180 (by omega)
  have c4 := constrain_mem (d.angleCurrent - 5) 0 180 (by omega)
  unfold adjustCase
  split_ifs <;> cases ok <;>
    simp only [AngleOk, LimitsWithin, eepromCommit, eepromWrite, servoWrite, emit] <;>
    (try simp) <;> omega

theorem adjustStep_inv (m : Int) (hm : 180 ≤ m) (ok : Bool) (p : Poll) (d : Dev)
    (ha : AngleOk d) :
    AngleOk (adjustStep ok p d).2 ∧
      (LimitsWithin m d → LimitsWithin m (adjustStep ok p d).2) := by
  unfold adjustStep
  cases hp : p.decoded with
  | none => exact ⟨ha, id⟩
  | some res =>
    simp only
    split_ifs
    · exact ⟨ha, id⟩
    · exact adjustCase_inv m hm ok res.value (tick p.dt d) ha

theorem adjustLoop_inv (m : Int) (hm : 180 ≤ m) (ok : Bool) (ps : List Poll) :
    ∀ d : Dev, AngleOk d →
      AngleOk (adjustLoop ok ps d).2 ∧
        (LimitsWithin m d → LimitsWithin m (adjustLoop ok ps d).2) := by
  induction ps with
  | nil => intro d ha; exact ⟨ha, id⟩
  | cons p ps ih =>
    intro d ha
    have hs := adjustStep_inv m hm ok p d ha
    simp only [adjustLoop]
    split_ifs
    · exact ⟨(ih _ hs.1).1, fun hl => (ih _ hs.1).2 (hs.2 hl)⟩
    · exact hs

theorem adjustEnter_inv (d : Dev) :
    (adjustEnter d).angleCurrent = 90 ∧ AngleOk (adjustEnter d) ∧
      ∀ m : Int, LimitsWithin m d → LimitsWithin m (adjustEnter d) := by
  have h90 : (adjustEnter d).angleCurrent = 90 := by simp [adjustEnter, servoWrite, emit]
  refine ⟨h90, ?_, fun m hl => hl⟩
  unfold AngleOk
  rw [h90]
  decide

theorem changeLimits_limits (m : Int) (hm : 180 ≤ m) (ps : List Poll) (ok : Bool)
    (d d' : Dev) (h : changeLimits ps ok d = some d') (hl : LimitsWithin m d) :
    LimitsWithin m d' := by
  unfold changeLimits at h
  simp only at h
  split at h
  · cases h
  · rename_i a rest c heq
    have hq : Quiet d c :=
      ((quiet_resume d).andThen (quiet_ledOn _)).andThen (quiet_confirmLoop _ _ _ _ _ _ heq)
    have hc : LimitsWithin m c := by
      obtain ⟨_, q2, q3, _⟩ := hq
      unfold LimitsWithin
      rw [q2, q3]
      exact hl
    split_ifs at h
    · simp only [Option.some.injEq] at h
      rw [← h]
      exact (adjustLoop_inv m hm ok rest _ (adjustEnter_inv c).2.1).2
        ((adjustEnter_inv c).2.2 m hc)
    · simp only [Option.some.injEq] at h
      rw [← h]
      exact hc

/-! ## Limits in the reachable states -/

theorem LimitsWithin.of_eq {m : Int} {d d' : Dev} (hl : LimitsWithin m d)
    (hc : d'.angleClosed = d.angleClosed) (ho : d'.angleOpen = d.angleOpen) :
    LimitsWithin m d' := by
  unfold LimitsWithin
  rw [hc, ho]
  exact hl

theorem LimitsWithin.of_quiet {m : Int} {d d' : Dev} (hl : LimitsWithin m d)
    (hq : Quiet d d') : LimitsWithin m d' :=
  hl.of_eq hq.2.1 hq.2.2.1

theorem dispatchCase_limits (m : Int) (hm : 180 ≤ m) (v : Nat) (i : LoopIn) (d d' : Dev)
    (h : dispatchCase v i d = some d') (hl : LimitsWithin m d) : LimitsWithin m d' := by
  unfold dispatchCase at h
  split_ifs at h
  · exact hl.of_quiet (quiet_initWifi _ _ _ h)
  · cases h; exact hl.of_quiet (quiet_disableWifi _)
  · cases h; exact hl.of_eq rfl rfl
  · cases h; exact hl.of_eq rfl rfl
  · cases h; exact hl.of_eq rfl rfl
  · cases h; exact hl.of_eq rfl rfl
  · exact hl.of_quiet (quiet_changeEnvControl _ _ _ h)
  · exact changeLimits_limits m hm _ _ _ _ h hl
  · cases h; exact hl

theorem relayAutoOff_limits {m : Int} {d : Dev} (hl : LimitsWithin m d) :
    LimitsWithin m (relayAutoOff d) :=
  hl.of_eq (relayAutoOff_angles d).2.1 (relayAutoOff_angles d).2.2

theorem loop_limits (m : Int) (hm : 180 ≤ m) (i : LoopIn) (d d' : Dev)
    (h : loop i d = some d') (hl : LimitsWithin m d) : LimitsWithin m d' := by
  unfold loop at h
  simp only [Option.map_eq_some'] at h
  obtain ⟨c, hc, rfl⟩ := h
  have h0 : LimitsWithin m (maintainWifi i.connected (tick i.dt d)) :=
    hl.of_quiet ((quiet_tick _ _).andThen (quiet_maintainWifi _ _))
  refine (relayAutoOff_limits ?_).of_quiet (quiet_blinkLed _)
  split at hc
  · cases hc; exact h0
  · rename_i res _
    unfold dispatch at hc
    simp only [Option.map_eq_some'] at hc
    obtain ⟨b, hb, rfl⟩ := hc
    refine LimitsWithin.of_quiet ?_ (quiet_resume b)
    split_ifs at hb
    · exact dispatchCase_limits m hm _ _ _ _ hb h0
    · cases hb; exact h0

theorem setup_limits (e0 e1 : Nat) (pwd : String) :
    (setup (powerOn e0 e1 pwd)).angleClosed = ((e0 % 256 : Nat) : Int) ∧
    (setup (powerOn e0 e1 pwd)).angleOpen = ((e1 % 256 : Nat) : Int) := by
  simp [setup, powerOn, eepromRead, delay, tick, emit, ledOff]

theorem reachable_limits (m : Int) (hm : 180 ≤ m) (e0 e1 : Nat) (pwd : String)
    (h0 : ((e0 % 256 : Nat) : Int) ≤ m) (h1 : ((e1 % 256 : Nat) : Int) ≤ m) (d : Dev)
    (h : Reachable e0 e1 pwd d) : LimitsWithin m d := by
  induction h with
  | start =>
    unfold LimitsWithin
    rw [(setup_limits e0 e1 pwd).1, (setup_limits e0 e1 pwd).2]
    omega
  | step i _ hstep ih => exact loop_limits m hm i _ _ hstep ih

/-- C3 as stated fails.  With the bytes 200 and 50 in the store, the limits after `setup`
are 200 and 50.  With the bytes 80 and 100, one calibration session (confirm, five steps of
+5, commit as closed limit) leaves closed = 115 above open = 100. -/
theorem C3_counterexample :
    (Reachable 200 50 "pw" (setup (powerOn 200 50 "pw")) ∧
      (setup (powerOn 200 50 "pw")).angleClosed = 200 ∧
      (setup (powerOn 200 50 "pw")).angleOpen = 50) ∧
    ∃ d, Reachable 80 100 "pw" d ∧ d.angleClosed = 115 ∧ d.angleOpen = 100 := by
  refine ⟨⟨Reachable.start, by decide, by decide⟩, ?_⟩
  refine ⟨_, Reachable.step
    ⟨10, true, some ⟨.NEC, IR_BLUE⟩,
      [⟨5, some ⟨.NEC, IR_M5⟩⟩, ⟨5, some ⟨.NEC, IR_P5⟩⟩, ⟨5, some ⟨.NEC, IR_P5⟩⟩,
        ⟨5, some ⟨.NEC, IR_P5⟩⟩, ⟨5, some ⟨.NEC, IR_P5⟩⟩, ⟨5, some ⟨.NEC, IR_P5⟩⟩,
        ⟨5, some ⟨.NEC, IR_DOWN⟩⟩], [], true⟩
    Reachable.start rfl, by decide, by decide⟩

/-- C3 (amended): when the two bytes loaded by `setup` are at most 180, every state
reachable after initialization has both limits in `[0, 180]`.  The order
`angleClosed ≤ angleOpen` is not part of the invariant. -/
theorem C3_limits_in_range (e0 e1 : Nat) (pwd : String) (d : Dev)
    (h0 : e0 ≤ 180) (h1 : e1 ≤ 180) (h : Reachable e0 e1 pwd d) :
    0 ≤ d.angleClosed ∧ d.angleClosed ≤ 180 ∧ 0 ≤ d.angleOpen ∧ d.angleOpen ≤ 180 :=
  reachable_limits 180 (le_refl _) e0 e1 pwd (by omega) (by omega) d h

/-- C3 witness: the state after `setup` with the bytes 80 and 100. -/
theorem C3_limits_in_range_witness :
    0 ≤ sampleDev.angleClosed ∧ sampleDev.angleClosed ≤ 180 ∧
      0 ≤ sampleDev.angleOpen ∧ sampleDev.angleOpen ≤ 180 :=
  C3_limits_in_range 80 100 "pw" sampleDev (by decide) (by decide) Reachable.start

/-- C6: on entry of the adjustment phase the working angle is 90, and after any number of
polls of the adjustment loop, whatever they decode, it lies in `[0, 180]`. -/
theorem C6_working_angle_range (d : Dev) (commitOk : Bool) (ps : List Poll) :
    (adjustEnter d).angleCurrent = 90 ∧
    ∀ n : Nat,
      0 ≤ (adjustLoop commitOk (ps.take n) (adjustEnter d)).2.angleCurrent ∧
      (adjustLoop commitOk (ps.take n) (adjustEnter d)).2.angleCurrent ≤ 180 := by
  refine ⟨(adjustEnter_inv d).1, fun n => ?_⟩
  exact (adjustLoop_inv 180 (le_refl _) commitOk (ps.take n) _ (adjustEnter_inv d).2.1).1

/-! ## Confirmation phase -/

theorem confirmStep_noNEC (t : Nat) (p : Poll) (d : Dev) (h : p.isNEC = false) :
    (confirmStep t p d).1 = false ∧ (confirmStep t p d).2.2.clock = d.clock + p.dt ∧
      ((confirmStep t p d).2.1 = false ↔ 2000 < subUL ((d.clock + p.dt) % 4294967296) t) := by
  unfold Poll.isNEC at h
  unfold confirmStep
  cases hp : p.decoded with
  | none =>
    simp only
    split_ifs with hc <;> simp [emit, tick, millis] at hc ⊢ <;> omega
  | some res =>
    rw [hp] at h
    simp only [decide_eq_false_iff_not] at h
    simp only [ne_eq, h, not_false_eq_true, if_true]
    split_ifs with hc <;> simp [emit, tick, millis, resume] at hc ⊢ <;> omega

theorem confirmStep_cancel (t : Nat) (p : Poll) (d : Dev) (v : Nat)
    (hp : p.decoded = some ⟨.NEC, v⟩) (hv : v ≠ IR_M5) :
    (confirmStep t p d).1 = false ∧ (confirmStep t p d).2.1 = false := by
  unfold confirmStep
  rw [hp]
  simp only [ne_eq, not_true_eq_false, if_false, hv]
  split_ifs <;> simp

theorem confirmLoop_noNEC (t : Nat) (tail : List Poll) (pre : List Poll) :
    ∀ d : Dev, (∀ q ∈ pre, q.isNEC = false) →
      (∃ rest c, confirmLoop t (pre ++ tail) d = some (false, rest, c)) ∨
      (∃ c, confirmLoop t (pre ++ tail) d = confirmLoop t tail c ∧
        c.clock = d.clock + (pre.map Poll.dt).sum) := by
  induction pre with
  | nil => intro d _; exact Or.inr ⟨d, rfl, by simp⟩
  | cons q pre ih =>
    intro d hpre
    obtain ⟨ha, hck, _⟩ := confirmStep_noNEC t q d (hpre q (List.mem_cons_self _ _))
    simp only [List.cons_append, confirmLoop]
    split_ifs with hs
    · rcases ih (confirmStep t q d).2.2 (fun r hr => hpre r (List.mem_cons_of_mem _ hr)) with
        h | ⟨c, hc, hcc⟩
      · exact Or.inl h
      · refine Or.inr ⟨c, hc, ?_⟩
        rw [hcc, hck, List.map_cons, List.sum_cons]
        omega
    · exact Or.inl ⟨_, _, by rw [ha]⟩

theorem changeLimits_of_cancelled (ps : List Poll) (ok : Bool) (d : Dev) (rest : List Poll)
    (c : Dev) (h : confirmLoop (millis d) ps (ledOn (resume d)) = some (false, rest, c)) :
    changeLimits ps ok d = some (ledOff c) ∧ Quiet d (ledOff c) := by
  have hm : millis (ledOn (resume d)) = millis d := rfl
  refine ⟨by simp [changeLimits, hm, h], ?_⟩
  exact ((quiet_resume d).andThen (quiet_ledOn _)).andThen
    ((quiet_confirmLoop _ _ _ _ _ _ h).andThen (quiet_ledOff _))

/-- C4 as stated fails.  Nothing is received for 2001 ms: two polls 1000 ms apart deliver
nothing, and the third poll, 2001 ms after the start, delivers the confirm code.  The loop
handles the decoded code (lines 354-372) before it tests the deadline (line 374), so the
session is approved; a step of +5 and a commit as closed limit then move `angleClosed` and
store slot 0 from 80 to 95. -/
theorem C4_counterexample :
    (2000 < 1000 + 1000 + 1 ∧ sampleDev.angleClosed = 80 ∧ sampleDev.eeprom0 = 80) ∧
    (confirmLoop (millis sampleDev)
        [⟨1000, none⟩, ⟨1000, none⟩, ⟨1, some ⟨.NEC, IR_M5⟩⟩, ⟨5, some ⟨.NEC, IR_P5⟩⟩,
          ⟨5, some ⟨.NEC, IR_DOWN⟩⟩]
        (ledOn (resume sampleDev))).map (fun r => r.1) = some true ∧
    (changeLimits
        [⟨1000, none⟩, ⟨1000, none⟩, ⟨1, some ⟨.NEC, IR_M5⟩⟩, ⟨5, some ⟨.NEC, IR_P5⟩⟩,
          ⟨5, some ⟨.NEC, IR_DOWN⟩⟩]
        true sampleDev).map (fun d => (d.angleClosed, d.eeprom0)) = some (95, 95) := by
  decide

/-- C4 (amended): a calibration session whose polls deliver no NEC message up to a poll `p`
which either delivers an NEC code other than the confirm code, or is made more than 2000 ms
after the start of the session and itself delivers no NEC message.  The session returns,
the confirmation loop ends with `adjustApproved = false` (the adjustment phase is skipped),
and angles, relay and both store slots are unchanged, no call to servo, relay or store being
made. -/
theorem C4_unconfirmed_session_changes_nothing (d : Dev) (commitOk : Bool)
    (pre : List Poll) (p : Poll) (rest : List Poll)
    (hpre : ∀ q ∈ pre, q.isNEC = false)
    (hp : (∃ v, p.decoded = some ⟨.NEC, v⟩ ∧ v ≠ IR_M5) ∨
      (p.isNEC = false ∧ 2000 < (pre.map Poll.dt).sum + p.dt ∧
        (pre.map Poll.dt).sum + p.dt < 4294967296)) :
    ∃ d' rest' c,
      confirmLoop (millis d) (pre ++ p :: rest) (ledOn (resume d)) = some (false, rest', c) ∧
      changeLimits (pre ++ p :: rest) commitOk d = some d' ∧
      d'.angleClosed = d.angleClosed ∧ d'.angleOpen = d.angleOpen ∧
      d'.eeprom0 = d.eeprom0 ∧ d'.eeprom1 = d.eeprom1 ∧ Quiet d d' := by
  have key : ∃ rest' c,
      confirmLoop (millis d) (pre ++ p :: rest) (ledOn (resume d)) = some (false, rest', c) := by
    rcases confirmLoop_noNEC (millis d) (p :: rest) pre (ledOn (resume d)) hpre with
      h | ⟨c, hc, hcc⟩
    · exact h
    · rw [hc]
      simp only [confirmLoop]
      rcases hp with ⟨v, hv, hne⟩ | ⟨hn, hlo, hhi⟩
      · obtain ⟨h1, h2⟩ := confirmStep_cancel (millis d) p c v hv hne
        rw [if_neg (by simp [h2])]
        exact ⟨_, _, by rw [h1]⟩
      · obtain ⟨h1, _, h3⟩ := confirmStep_noNEC (millis d) p c hn
        have hout : (confirmStep (millis d) p c).2.1 = false := by
          rw [h3, hcc]
          have hclk : (ledOn (resume d)).clock = d.clock := rfl
          rw [hclk]
          unfold subUL millis
          omega
        rw [if_neg (by simp [hout])]
        exact ⟨_, _, by rw [h1]⟩
  obtain ⟨rest', c, hc⟩ := key
  obtain ⟨h1, hq⟩ := changeLimits_of_cancelled _ commitOk d rest' c hc
  exact ⟨ledOff c, rest', c, hc, h1, hq.2.1, hq.2.2.1, hq.2.2.2.2.2.1, hq.2.2.2.2.2.2.1, hq⟩

/-- C4 witness: nothing is received; the second poll comes 2105 ms after the start. -/
theorem C4_unconfirmed_session_changes_nothing_witness :
    ∃ d' rest' c,
      confirmLoop (millis sampleDev) ([⟨5, none⟩] ++ ⟨2100, none⟩ :: [])
        (ledOn (resume sampleDev)) = some (false, rest', c) ∧
      changeLimits ([⟨5, none⟩] ++ ⟨2100, none⟩ :: []) true sampleDev = some d' ∧
      d'.angleClosed = sampleDev.angleClosed ∧ d'.angleOpen = sampleDev.angleOpen ∧
      d'.eeprom0 = sampleDev.eeprom0 ∧ d'.eeprom1 = sampleDev.eeprom1 ∧ Quiet sampleDev d' :=
  C4_unconfirmed_session_changes_nothing sampleDev true [⟨5, none⟩] ⟨2100, none⟩ []
    (by decide) (Or.inr ⟨by decide, by decide, by decide⟩)

/-! ## Commit of a limit -/

theorem toByte_of_range (w : Int) (h0 : 0 ≤ w) (h1 : w ≤ 255) : ((toByte w : Nat) : Int) = w := by
  unfold toByte
  omega

theorem adjustLoop_append (ok : Bool) (ps qs : List Poll) :
    ∀ d : Dev, adjustLoop ok (ps ++ qs) d =
      if (adjustLoop ok ps d).1 then adjustLoop ok qs (adjustLoop ok ps d).2
      else adjustLoop ok ps d := by
  induction ps with
  | nil => intro d; simp [adjustLoop]
  | cons p ps ih =>
    intro d
    rw [List.cons_append]
    simp only [adjustLoop]
    by_cases h1 : (adjustStep ok p d).1 = true
    · simp only [h1, if_true]
      exact ih _
    · simp [h1]

theorem changeLimits_of_commit (d0 : Dev) (ok : Bool) (polls steps rest : List Poll)
    (p : Poll) (c d : Dev)
    (hconf : confirmLoop (millis d0) polls (ledOn (resume d0)) =
      some (true, steps ++ p :: rest, c))
    (hrun : adjustLoop ok steps (adjustEnter c) = (true, d))
    (hstop : (adjustStep ok p d).1 = false) :
    changeLimits polls ok d0 = some (ledOff (relayOff (adjustStep ok p d).2)) := by
  have hm : millis (ledOn (resume d0)) = millis d0 := rfl
  simp [changeLimits, hm, hconf, adjustLoop_append, hrun, adjustLoop, hstop]

/-- C5: in a calibration session that was confirmed and has reached, still scanning, the
adjustment-phase state `d` with working angle `w = d.angleCurrent`, the next NEC code `v`
is handled as follows.  For `v = IR_UP` (commit as open limit) the session returns with
`angleOpen = w` and store slot 1 `= w`, `angleClosed` and slot 0 as in `d`, relay off.
For `v = IR_DOWN` (commit as closed limit) it returns with `angleClosed = w` and slot 0
`= w`, `angleOpen` and slot 1 as in `d`, relay off. -/
theorem C5_commit_writes_one_limit (d0 : Dev) (commitOk : Bool)
    (polls steps rest : List Poll) (dt : Nat) (v : Nat) (c d : Dev)
    (hconf : confirmLoop (millis d0) polls (ledOn (resume d0)) =
      some (true, steps ++ ⟨dt, some ⟨.NEC, v⟩⟩ :: rest, c))
    (hrun : adjustLoop commitOk steps (adjustEnter c) = (true, d)) :
    (v = IR_UP → ∃ d', changeLimits polls commitOk d0 = some d' ∧
      d'.angleOpen = d.angleCurrent ∧ (d'.eeprom1 : Int) = d.angleCurrent ∧
      d'.angleClosed = d.angleClosed ∧ d'.eeprom0 = d.eeprom0 ∧ d'.relayState = false) ∧
    (v = IR_DOWN → ∃ d', changeLimits polls commitOk d0 = some d' ∧
      d'.angleClosed = d.angleCurrent ∧ (d'.eeprom0 : Int) = d.angleCurrent ∧
      d'.angleOpen = d.angleOpen ∧ d'.eeprom1 = d.eeprom1 ∧ d'.relayState = false) := by
  have ha : AngleOk d := by
    have := (adjustLoop_inv 180 (le_refl _) commitOk steps _ (adjustEnter_inv c).2.1).1
    rw [hrun] at this
    exact this
  have hb := toByte_of_range d.angleCurrent ha.1 (by have := ha.2; omega)
  constructor
  · rintro rfl
    refine ⟨_, changeLimits_of_commit d0 commitOk polls steps rest _ c d hconf hrun
      (by simp [adjustStep, adjustCase]), ?_⟩
    cases commitOk <;>
      simpa [adjustStep, adjustCase, eepromCommit, eepromWrite, emit, resume, tick, ledOff,
        relayOff] using hb
  · rintro rfl
    refine ⟨_, changeLimits_of_commit d0 commitOk polls steps rest _ c d hconf hrun
      (by simp [adjustStep, adjustCase, IR_UP, IR_DOWN]), ?_⟩
    cases commitOk <;>
      simpa [adjustStep, adjustCase, eepromCommit, eepromWrite, emit, resume, tick, ledOff,
        relayOff, IR_UP, IR_DOWN] using hb

/-- C5 witness: confirm, four steps of -5 from 90, commit as closed limit: the session
returns with closed = 70 and slot 0 = 70, open and slot 1 still 100, relay off. -/
theorem C5_commit_writes_one_limit_witness :
    ∃ d', changeLimits
        [⟨5, some ⟨.NEC, IR_M5⟩⟩, ⟨5, some ⟨.NEC, IR_M5⟩⟩, ⟨5, some ⟨.NEC, IR_M5⟩⟩,
          ⟨5, some ⟨.NEC, IR_M5⟩⟩, ⟨5, some ⟨.NEC, IR_M5⟩⟩, ⟨5, some ⟨.NEC, IR_DOWN⟩⟩]
        true sampleDev = some d' ∧
      d'.angleClosed = 70 ∧ (d'.eeprom0 : Int) = 70 ∧
      d'.angleOpen = 100 ∧ d'.eeprom1 = 100 ∧ d'.relayState = false :=
  (C5_commit_writes_one_limit sampleDev true
    [⟨5, some ⟨.NEC, IR_M5⟩⟩, ⟨5, some ⟨.NEC, IR_M5⟩⟩, ⟨5, some ⟨.NEC, IR_M5⟩⟩,
      ⟨5, some ⟨.NEC, IR_M5⟩⟩, ⟨5, some ⟨.NEC, IR_M5⟩⟩, ⟨5, some ⟨.NEC, IR_DOWN⟩⟩]
    [⟨5, some ⟨.NEC, IR_M5⟩⟩, ⟨5, some ⟨.NEC, IR_M5⟩⟩, ⟨5, some ⟨.NEC, IR_M5⟩⟩,
      ⟨5, some ⟨.NEC, IR_M5⟩⟩]
    [] 5 IR_DOWN
    (confirmStep (millis sampleDev) ⟨5, some ⟨.NEC, IR_M5⟩⟩ (ledOn (resume sampleDev))).2.2
    (adjustLoop true
      [⟨5, some ⟨.NEC, IR_M5⟩⟩, ⟨5, some ⟨.NEC, IR_M5⟩⟩, ⟨5, some ⟨.NEC, IR_M5⟩⟩,
        ⟨5, some ⟨.NEC, IR_M5⟩⟩]
      (adjustEnter (confirmStep (millis sampleDev) ⟨5, some ⟨.NEC, IR_M5⟩⟩
        (ledOn (resume sampleDev))).2.2)).2
    rfl rfl).2 rfl

/-! ## Calls of `irrecv.resume()` while a decode event is handled -/

theorem TraceExt.unchanged (d : Dev) : TraceExt d d := ⟨[], by simp⟩

theorem TraceExt.followedBy {a b c : Dev} (h1 : TraceExt a b) (h2 : TraceExt b c) :
    TraceExt a c := by
  obtain ⟨es, hes⟩ := h1
  obtain ⟨fs, hfs⟩ := h2
  exact ⟨es ++ fs, by rw [hfs, hes, List.append_assoc]⟩

theorem TraceExt.from_quiet {d d' : Dev} (h : Quiet d d') : TraceExt d d' := by
  obtain ⟨_, _, _, _, _, _, _, _, es, hes, _⟩ := h
  exact ⟨es, hes⟩

theorem TraceExt.of_trace_eq {d d' : Dev} (h : d'.trace = d.trace) : TraceExt d d' :=
  ⟨[], by simp [h]⟩

theorem traceExt_emit (e : Effect) (d : Dev) : TraceExt d (emit e d) := ⟨[e], rfl⟩

theorem traceExt_adjustCase (ok : Bool) (v : Nat) (d : Dev) :
    TraceExt d (adjustCase ok v d).2 := by
  unfold adjustCase
  split_ifs
  · cases ok
    · exact ⟨[.eepromWrite 1 (toByte d.angleCurrent), .eepromCommit false],
        by simp [eepromCommit, eepromWrite, emit]⟩
    · exact ⟨[.eepromWrite 1 (toByte d.angleCurrent), .eepromCommit true],
        by simp [eepromCommit, eepromWrite, emit]⟩
  · cases ok
    · exact ⟨[.eepromWrite 0 (toByte d.angleCurrent), .eepromCommit false],
        by simp [eepromCommit, eepromWrite, emit]⟩
    · exact ⟨[.eepromWrite 0 (toByte d.angleCurrent), .eepromCommit true],
        by simp [eepromCommit, eepromWrite, emit]⟩
  · exact TraceExt.unchanged d
  · exact traceExt_emit _ _
  · exact traceExt_emit _ _
  · exact traceExt_emit _ _
  · exact traceExt_emit _ _
  · exact TraceExt.unchanged d

theorem traceExt_adjustStep (ok : Bool) (p : Poll) (d : Dev) :
    TraceExt d (adjustStep ok p d).2 := by
  unfold adjustStep
  have h0 : TraceExt d (tick p.dt d) := TraceExt.of_trace_eq rfl
  cases hp : p.decoded with
  | none => exact h0.followedBy (traceExt_emit _ _)
  | some res =>
    simp only
    split_ifs
    · exact h0.followedBy ((traceExt_emit _ _).followedBy (traceExt_emit _ _))
    · exact h0.followedBy ((traceExt_adjustCase ok res.value _).followedBy
        ((traceExt_emit _ _).followedBy (traceExt_emit _ _)))

theorem traceExt_adjustLoop (ok : Bool) (ps : List Poll) :
    ∀ d : Dev, TraceExt d (adjustLoop ok ps d).2 := by
  induction ps with
  | nil => intro d; exact TraceExt.unchanged d
  | cons p ps ih =>
    intro d
    simp only [adjustLoop]
    split_ifs
    · exact (traceExt_adjustStep ok p d).followedBy (ih _)
    · exact traceExt_adjustStep ok p d

theorem traceExt_changeLimits (ps : List Poll) (ok : Bool) (d d' : Dev)
    (h : changeLimits ps ok d = some d') : TraceExt (resume d) d' := by
  unfold changeLimits at h
  simp only at h
  split at h
  · cases h
  · rename_i a rest c heq
    have hq : TraceExt (resume d) c :=
      TraceExt.from_quiet ((quiet_ledOn _).andThen (quiet_confirmLoop _ _ _ _ _ _ heq))
    split_ifs at h
    · simp only [Option.some.injEq] at h
      rw [← h]
      have he : TraceExt c (adjustEnter c) :=
        ⟨[.relayWrite true, .servoWrite 90], by simp [adjustEnter, relayOn, servoWrite, emit]⟩
      exact hq.followedBy <| he.followedBy <| (traceExt_adjustLoop ok rest _).followedBy <|
        (traceExt_emit _ _).followedBy (traceExt_emit _ _)
    · simp only [Option.some.injEq] at h
      rw [← h]
      exact hq.followedBy (traceExt_emit _ _)


theorem resume_after_handler {d b : Dev} (h : TraceExt (resume d) b) :
    ∃ es, (resume b).trace = d.trace ++ es ∧ es.getLast? = some .resume ∧
      2 ≤ es.count .resume := by
  obtain ⟨fs, hfs⟩ := h
  refine ⟨.resume :: (fs ++ [.resume]), ?_, ?_, ?_⟩
  · simp [resume, emit] at hfs ⊢
    rw [hfs]
    simp
  · rw [← List.cons_append, List.getLast?_append]
    simp
  · rw [List.count_cons_self, List.count_append]
    simp

theorem dispatch_trace (res : decode_results) (i : LoopIn) (d d' : Dev)
    (h : dispatch res i d = some d') :
    ∃ es, d'.trace = d.trace ++ es ∧ es.getLast? = some .resume ∧
      (¬ callsHandler res → es.count .resume = 1) ∧
      (callsHandler res → 2 ≤ es.count .resume) := by
  unfold dispatch at h
  simp only [Option.map_eq_some'] at h
  obtain ⟨b, hb, rfl⟩ := h
  by_cases hn : res.decode_type = .NEC
  · rw [if_pos hn] at hb
    unfold dispatchCase at hb
    have hyes : ∀ {b : Dev}, TraceExt (resume d) b → callsHandler res →
        ∃ es, (resume b).trace = d.trace ++ es ∧ es.getLast? = some .resume ∧
          (¬ callsHandler res → es.count .resume = 1) ∧
          (callsHandler res → 2 ≤ es.count .resume) := by
      intro b hext hc
      obtain ⟨es, h1, h2, h3⟩ := resume_after_handler hext
      exact ⟨es, h1, h2, fun hnc => absurd hc hnc, fun _ => h3⟩
    have hno : ∀ (fs : List Effect), b.trace = d.trace ++ fs → fs.count .resume = 0 →
        ¬ callsHandler res →
        ∃ es, (resume b).trace = d.trace ++ es ∧ es.getLast? = some .resume ∧
          (¬ callsHandler res → es.count .resume = 1) ∧
          (callsHandler res → 2 ≤ es.count .resume) := by
      intro fs hfs hcnt hnc
      refine ⟨fs ++ [.resume], by simp [resume, emit, hfs], by simp,
        fun _ => by rw [List.count_append, hcnt]; simp, fun hc => absurd hc hnc⟩
    split_ifs at hb with h1 h2 h3 h4 h5 h6 h7 h8
    · exact hyes (TraceExt.from_quiet (quiet_initWifi_body _ _ _ hb)) ⟨hn, by simp [h1]⟩
    · cases hb
      exact hyes (TraceExt.from_quiet (quiet_disableWifi_body _)) ⟨hn, by simp [h2]⟩
    · cases hb
      exact hyes ⟨[.relayWrite true, .delay 100, .servoWrite d.angleOpen],
        by simp [openAV, relayOn, servoWrite, delay, tick, resume, emit]⟩ ⟨hn, by simp [h3]⟩
    · cases hb
      exact hyes ⟨[.relayWrite true, .delay 100, .servoWrite d.angleClosed],
        by simp [closeAV, relayOn, servoWrite, delay, tick, resume, emit]⟩ ⟨hn, by simp [h4]⟩
    · cases hb
      refine hno [.relayWrite true,
        .servoWrite (constrain (d.angleCurrent + 5) d.angleClosed d.angleOpen)]
        (by simp [caseUp, relayOn, servoWrite, emit]) (by simp [List.count_cons]) ?_
      rintro ⟨_, hv⟩
      rw [h5] at hv
      revert hv
      decide
    · cases hb
      refine hno [.relayWrite true,
        .servoWrite (constrain (d.angleCurrent - 5) d.angleClosed d.angleOpen)]
        (by simp [caseDown, relayOn, servoWrite, emit]) (by simp [List.count_cons]) ?_
      rintro ⟨_, hv⟩
      rw [h6] at hv
      revert hv
      decide
    · exact hyes (TraceExt.from_quiet (quiet_changeEnvControl_body _ _ _ hb)) ⟨hn, by simp [h7]⟩
    · exact hyes (traceExt_changeLimits _ _ _ _ hb) ⟨hn, by simp [h8]⟩
    · cases hb
      refine hno [] (by simp) (by simp) ?_
      rintro ⟨_, hv⟩
      rcases hv with hv | hv | hv | hv | hv | hv <;> contradiction
  · rw [if_neg hn] at hb
    cases hb
    exact ⟨[.resume], rfl, rfl, fun _ => by simp, fun hc => absurd hc.1 hn⟩

/-- C7 as stated fails: while the NEC code GREEN (open) is handled, `irrecv.resume()` is
called twice, once on entry of `openAV` and once by `loop` after the `switch`. -/
theorem C7_counterexample :
    dispatch ⟨.NEC, IR_GREEN⟩ idleIn sampleDev = some (resume (openAV sampleDev)) ∧
    (resume (openAV sampleDev)).trace = sampleDev.trace ++
      [.resume, .relayWrite true, .delay 100, .servoWrite 100, .resume] ∧
    List.count Effect.resume
      [.resume, .relayWrite true, .delay 100, .servoWrite 100, .resume] = 2 := by
  decide

/-- C7 (amended): when the handling of a decode event returns, the calls made to the
collaborators end with the `irrecv.resume()` of `loop`, so `resume` is called at least once.
It is called exactly once when no function of the sketch is called for the event (another
protocol, NEC code UP or DOWN, unknown NEC code) and at least twice when one is (ON, OFF,
open, close, climate flag, calibration), since each of these functions calls
`irrecv.resume()` on entry. -/
theorem C7_resume_per_event (res : decode_results) (i : LoopIn) (d d' : Dev)
    (h : dispatch res i d = some d') :
    ∃ es, d'.trace = d.trace ++ es ∧ es.getLast? = some .resume ∧
      (¬ callsHandler res → es.count .resume = 1) ∧
      (callsHandler res → 2 ≤ es.count .resume) :=
  dispatch_trace res i d d' h

/-- C7 witness: the NEC code UP handled in the sample state. -/
theorem C7_resume_per_event_witness :
    ∃ es, (resume (caseUp sampleDev)).trace = sampleDev.trace ++ es ∧
      es.getLast? = some .resume ∧
      (¬ callsHandler ⟨.NEC, IR_UP⟩ → es.count .resume = 1) ∧
      (callsHandler ⟨.NEC, IR_UP⟩ → 2 ≤ es.count .resume) :=
  C7_resume_per_event ⟨.NEC, IR_UP⟩ idleIn sampleDev (resume (caseUp sampleDev)) rfl

/-! ## WiFi with an empty password -/

/-- C8: with WiFi disabled and an empty password, `initWifi` returns with `Blink = true`
(error flag) and `Wifienabled = false`; the calls it makes are exactly `irrecv.resume()`,
`WiFi.disconnect()`, `delay(100)`, `WiFi.hostname`, `WiFi.mode` and `ThingSpeak.begin`, so
`WiFi.begin` is not called. -/
theorem C8_empty_password (sts : List wl_status_t) (d : Dev)
    (hoff : d.Wifienabled = false) (hpwd : d.WIFI_PWD = "") :
    ∃ d', initWifi sts d = some d' ∧ d'.Blink = true ∧ d'.Wifienabled = false ∧
      d'.trace = d.trace ++
        [.resume, .wifiDisconnect, .delay 100, .wifiHostname, .wifiMode, .thingSpeakBegin] ∧
      Effect.wifiBegin ∉ d'.trace.drop d.trace.length := by
  refine ⟨_, by simp [initWifi, resume, emit, delay, tick, hoff, hpwd]; rfl, ?_, ?_, ?_, ?_⟩
  · rfl
  · simp [resume, emit, delay, tick, hoff]
  · simp [resume, emit, delay, tick]
  · simp [resume, emit, delay, tick]

/-- C8 witness: the state after `setup` with an empty password. -/
theorem C8_empty_password_witness :
    ∃ d', initWifi [] (setup (powerOn 80 100 "")) = some d' ∧ d'.Blink = true ∧
      d'.Wifienabled = false ∧
      d'.trace = (setup (powerOn 80 100 "")).trace ++
        [.resume, .wifiDisconnect, .delay 100, .wifiHostname, .wifiMode, .thingSpeakBegin] ∧
      Effect.wifiBegin ∉ d'.trace.drop (setup (powerOn 80 100 "")).trace.length :=
  C8_empty_password [] (setup (powerOn 80 100 "")) rfl rfl

/-! ## UP, DOWN, open and close: effect of one command -/

theorem constrain_eq_clamp (x lo hi : Int) (h : lo ≤ hi) : constrain x lo hi = clamp x lo hi := by
  unfold constrain clamp
  split_ifs <;> simp [max_def, min_def] <;> split_ifs <;> omega

/-- C9: with `angleClosed ≤ angleOpen`, handling the NEC code UP (resp. DOWN) sets
`angleCurrent` to the clamp of `angleCurrent + 5` (resp. `- 5`) to the limits, engages the
relay, commands the servo to exactly the new `angleCurrent`, and sets `relayTime` to the
current `millis()`; the housekeeping step of the same iteration leaves the relay engaged. -/
theorem C9_up_down_step (i : LoopIn) (d : Dev) (hlim : d.angleClosed ≤ d.angleOpen) :
    (∃ d', dispatch ⟨.NEC, IR_UP⟩ i d = some d' ∧
      d'.angleCurrent = clamp (d.angleCurrent + 5) d.angleClosed d.angleOpen ∧
      d'.relayState = true ∧ d'.relayTime = millis d' ∧ d'.clock = d.clock ∧
      d'.trace = d.trace ++ [.relayWrite true, .servoWrite d'.angleCurrent, .resume] ∧
      (relayAutoOff d').relayState = true) ∧
    (∃ d', dispatch ⟨.NEC, IR_DOWN⟩ i d = some d' ∧
      d'.angleCurrent = clamp (d.angleCurrent - 5) d.angleClosed d.angleOpen ∧
      d'.relayState = true ∧ d'.relayTime = millis d' ∧ d'.clock = d.clock ∧
      d'.trace = d.trace ++ [.relayWrite true, .servoWrite d'.angleCurrent, .resume] ∧
      (relayAutoOff d').relayState = true) := by
  constructor
  · refine ⟨resume (caseUp d), rfl, ?_, rfl, rfl, rfl, ?_, ?_⟩
    · rw [← constrain_eq_clamp _ _ _ hlim]
      rfl
    · simp [caseUp, relayOn, servoWrite, resume, emit]
    · simp [relayAutoOff, caseUp, relayOn, servoWrite, resume, emit, millis, subUL]
  · refine ⟨resume (caseDown d), rfl, ?_, rfl, rfl, rfl, ?_, ?_⟩
    · rw [← constrain_eq_clamp _ _ _ hlim]
      rfl
    · simp [caseDown, relayOn, servoWrite, resume, emit]
    · simp [relayAutoOff, caseDown, relayOn, servoWrite, resume, emit, millis, subUL]

/-- C9 witness: limits 80 and 100, angle 90.  The first UP gives 95 with the servo
commanded to 95; three UP commands in a row give 95, 100 and 100. -/
theorem C9_up_down_step_witness :
    (∃ d', dispatch ⟨.NEC, IR_UP⟩ idleIn sampleDev = some d' ∧
      d'.angleCurrent = 95 ∧ d'.relayState = true ∧
      d'.trace = sampleDev.trace ++ [.relayWrite true, .servoWrite 95, .resume]) ∧
    ((runLoop [{ idleIn with decoded := some ⟨.NEC, IR_UP⟩ }] sampleDev).map
        Dev.angleCurrent = some 95 ∧
      (runLoop [{ idleIn with decoded := some ⟨.NEC, IR_UP⟩ },
          { idleIn with decoded := some ⟨.NEC, IR_UP⟩ }] sampleDev).map
        Dev.angleCurrent = some 100 ∧
      (runLoop [{ idleIn with decoded := some ⟨.NEC, IR_UP⟩ },
          { idleIn with decoded := some ⟨.NEC, IR_UP⟩ },
          { idleIn with decoded := some ⟨.NEC, IR_UP⟩ }] sampleDev).map
        Dev.angleCurrent = some 100) := by
  refine ⟨?_, by decide⟩
  obtain ⟨d', h1, h2, h3, _, _, h6, _⟩ :=
    (C9_up_down_step idleIn sampleDev (by decide)).1
  have h95 : clamp (sampleDev.angleCurrent + 5) sampleDev.angleClosed sampleDev.angleOpen
      = 95 := by decide
  rw [h95] at h2
  rw [h2] at h6
  exact ⟨d', h1, h2, h3, h6⟩

/-- C10: handling the NEC code GREEN (open), resp. RED (close), sets `angleCurrent` to
`angleOpen`, resp. `angleClosed`; the calls made are, in this order, `irrecv.resume()`, the
relay pin set HIGH, `delay(100)`, the servo commanded to that limit, `irrecv.resume()`. -/
theorem C10_open_close_sequence (i : LoopIn) (d : Dev) :
    (∃ d', dispatch ⟨.NEC, IR_GREEN⟩ i d = some d' ∧ d'.angleCurrent = d.angleOpen ∧
      d'.relayState = true ∧ d'.clock = d.clock + 100 ∧
      d'.trace = d.trace ++
        [.resume, .relayWrite true, .delay 100, .servoWrite d.angleOpen, .resume]) ∧
    (∃ d', dispatch ⟨.NEC, IR_RED⟩ i d = some d' ∧ d'.angleCurrent = d.angleClosed ∧
      d'.relayState = true ∧ d'.clock = d.clock + 100 ∧
      d'.trace = d.trace ++
        [.resume, .relayWrite true, .delay 100, .servoWrite d.angleClosed, .resume]) := by
  constructor
  · refine ⟨resume (openAV d), rfl, rfl, rfl, rfl, ?_⟩
    simp [openAV, relayOn, servoWrite, delay, tick, resume, emit]
  · refine ⟨resume (closeAV d), rfl, rfl, rfl, rfl, ?_⟩
    simp [closeAV, relayOn, servoWrite, delay, tick, resume, emit]

/-! ## Rollover of `millis()` in the relay idle check -/

theorem subUL_add (relayTime e : Nat) (hr : relayTime < 4294967296) (he : e < 4294967296) :
    subUL ((relayTime + e) % 4294967296) relayTime = e := by
  unfold subUL
  omega

/-- C18: for `unsigned long` timestamps, every `relayTime` and every true elapsed time
`e < 2 ^ 32`, with `now = (relayTime + e) mod 2 ^ 32` the test of line 268,
`now - relayTime > 3000`, holds exactly when `e > 3000`; so in a state with the relay engaged,
`relayTime` as given and `millis()` reading `now`, the housekeeping step disengages the relay
exactly when `e > 3000`. -/
theorem C18_idle_check_rollover (relayTime e : Nat) (hr : relayTime < 4294967296)
    (he : e < 4294967296) :
    (3000 < subUL ((relayTime + e) % 4294967296) relayTime ↔ 3000 < e) ∧
    ∀ d : Dev, d.relayState = true → d.relayTime = relayTime →
      millis d = (relayTime + e) % 4294967296 →
      ((relayAutoOff d).relayState = false ↔ 3000 < e) := by
  refine ⟨by rw [subUL_add relayTime e hr he], ?_⟩
  intro d hd ht hm
  rw [relayAutoOff_relayState d hd, ht, hm, subUL_add relayTime e hr he]

/-- C18 witness: `relayTime` is 1000 ms before the rollover and 3001 ms have passed, so
`millis()` reads 2001. -/
theorem C18_idle_check_rollover_witness :
    (4294966296 + 3001) % 4294967296 = 2001 ∧
    ((3000 < subUL ((4294966296 + 3001) % 4294967296) 4294966296 ↔ 3000 < 3001) ∧
      ∀ d : Dev, d.relayState = true → d.relayTime = 4294966296 →
        millis d = (4294966296 + 3001) % 4294967296 →
        ((relayAutoOff d).relayState = false ↔ 3000 < 3001)) :=
  ⟨by decide, C18_idle_check_rollover 4294966296 3001 (by decide) (by decide)⟩

/-! ## Startup with a blank store -/

/-- C12, the code at the failing input: with both store bytes 255 (blank flash), which do
not satisfy `0 ≤ slot0 ≤ slot1 ≤ 180`, the limits are 80 and 100 before `setup` and 255 and
255 after it: `setup` adopts the stored bytes. -/
theorem C12_setup_adopts_stored_bytes :
    (powerOn 255 255 "pw").angleClosed = 80 ∧ (powerOn 255 255 "pw").angleOpen = 100 ∧
    (setup (powerOn 255 255 "pw")).angleClosed = 255 ∧
    (setup (powerOn 255 255 "pw")).angleOpen = 255 := by
  decide

/-! ## Events that are not dispatched -/

/-- C13: for a decode event of another protocol than NEC, or an NEC event whose code is none
of the eight codes of the `switch`, the handling consists of `irrecv.resume()` alone: limits,
`angleCurrent`, relay state and `relayTime`, `Wifienabled`, `Blink` and the store are
unchanged and the only call made is `resume`. -/
theorem C13_unrecognized_event_ignored (res : decode_results) (i : LoopIn) (d : Dev)
    (h : res.decode_type ≠ .NEC ∨ ¬ isDispatched res.value) :
    ∃ d', dispatch res i d = some d' ∧
      d'.angleClosed = d.angleClosed ∧ d'.angleOpen = d.angleOpen ∧
      d'.angleCurrent = d.angleCurrent ∧ d'.relayState = d.relayState ∧
      d'.relayTime = d.relayTime ∧ d'.Wifienabled = d.Wifienabled ∧ d'.Blink = d.Blink ∧
      d'.eeprom0 = d.eeprom0 ∧ d'.eeprom1 = d.eeprom1 ∧
      d'.trace = d.trace ++ [.resume] := by
  refine ⟨resume d, ?_, rfl, rfl, rfl, rfl, rfl, rfl, rfl, rfl, rfl, rfl⟩
  unfold dispatch
  by_cases hn : res.decode_type = .NEC
  · rcases h with h | h
    · exact absurd hn h
    · unfold isDispatched at h
      simp only [not_or] at h
      obtain ⟨h1, h2, h3, h4, h5, h6, h7, h8⟩ := h
      simp [hn, dispatchCase, h1, h2, h3, h4, h5, h6, h7, h8]
  · simp [hn]

/-- C13 witness: the NEC code `IR_P5`, which the main loop does not dispatch. -/
theorem C13_unrecognized_event_ignored_witness :
    ∃ d', dispatch ⟨.NEC, IR_P5⟩ idleIn sampleDev = some d' ∧
      d'.angleClosed = sampleDev.angleClosed ∧ d'.angleOpen = sampleDev.angleOpen ∧
      d'.angleCurrent = sampleDev.angleCurrent ∧ d'.relayState = sampleDev.relayState ∧
      d'.relayTime = sampleDev.relayTime ∧ d'.Wifienabled = sampleDev.Wifienabled ∧
      d'.Blink = sampleDev.Blink ∧
      d'.eeprom0 = sampleDev.eeprom0 ∧ d'.eeprom1 = sampleDev.eeprom1 ∧
      d'.trace = sampleDev.trace ++ [.resume] :=
  C13_unrecognized_event_ignored ⟨.NEC, IR_P5⟩ idleIn sampleDev (Or.inr (by decide))

/-! ## Steps that leave the limits and the store alone -/

theorem NoStore.idle (d : Dev) : NoStore d d := ⟨rfl, rfl, rfl, rfl, [], by simp, by simp⟩

theorem NoStore.next {a b c : Dev} (h1 : NoStore a b) (h2 : NoStore b c) : NoStore a c := by
  obtain ⟨a1, a2, a3, a4, es, hes, hq⟩ := h1
  obtain ⟨b1, b2, b3, b4, fs, hfs, hr⟩ := h2
  refine ⟨b1.trans a1, b2.trans a2, b3.trans a3, b4.trans a4, es ++ fs,
    by rw [hfs, hes, List.append_assoc], ?_⟩
  intro e he
  rcases List.mem_append.1 he with he | he
  · exact hq e he
  · exact hr e he

theorem noStore_of_quiet {d d' : Dev} (h : Quiet d d') : NoStore d d' := by
  obtain ⟨_, h2, h3, _, _, h6, h7, _, es, hes, hq⟩ := h
  refine ⟨h2, h3, h6, h7, es, hes, ?_⟩
  intro e he
  have := hq e he
  cases e <;> simp_all [Effect.isQuiet, Effect.isStore]

theorem noStore_emit (e : Effect) (d : Dev) (h : e.isStore = false) : NoStore d (emit e d) :=
  ⟨rfl, rfl, rfl, rfl, [e], rfl, by simpa using h⟩

theorem noStore_resume (d : Dev) : NoStore d (resume d) := noStore_emit .resume d rfl

theorem noStore_yield (d : Dev) : NoStore d (emit .yield d) := noStore_emit .yield d rfl

theorem noStore_adjustEnter (d : Dev) : NoStore d (adjustEnter d) :=
  ⟨rfl, rfl, rfl, rfl, [.relayWrite true, .servoWrite 90],
    by simp [adjustEnter, relayOn, servoWrite, emit], by simp [Effect.isStore]⟩

theorem noStore_adjustCase (ok : Bool) (v : Nat) (d : Dev)
    (h : (adjustCase ok v d).1 = true ∨ v = IR_OFF) : NoStore d (adjustCase ok v d).2 := by
  unfold adjustCase at h ⊢
  split_ifs at h ⊢ with h1 h2 h3 h4 h5 h6 h7
  · rcases h with h | h
    · simp at h
    · exact absurd (h1.symm.trans h) (by decide)
  · rcases h with h | h
    · simp at h
    · exact absurd (h2.symm.trans h) (by decide)
  · exact NoStore.idle d
  · exact ⟨rfl, rfl, rfl, rfl, [_], rfl, by simp [Effect.isStore]⟩
  · exact ⟨rfl, rfl, rfl, rfl, [_], rfl, by simp [Effect.isStore]⟩
  · exact ⟨rfl, rfl, rfl, rfl, [_], rfl, by simp [Effect.isStore]⟩
  · exact ⟨rfl, rfl, rfl, rfl, [_], rfl, by simp [Effect.isStore]⟩
  · exact NoStore.idle d

theorem noStore_adjustStep (ok : Bool) (p : Poll) (d : Dev)
    (h : (adjustStep ok p d).1 = true ∨ ∃ dt, p = ⟨dt, some ⟨.NEC, IR_OFF⟩⟩) :
    NoStore d (adjustStep ok p d).2 := by
  have h0 : NoStore d (tick p.dt d) := noStore_of_quiet (quiet_tick _ _)
  unfold adjustStep at h ⊢
  cases hp : p.decoded with
  | none => exact h0.next (noStore_yield _)
  | some res =>
    simp only [hp] at h ⊢
    split_ifs at h ⊢ with hn
    · exact h0.next ((noStore_resume _).next (noStore_yield _))
    · refine h0.next ((noStore_adjustCase ok res.value _ ?_).next
        ((noStore_resume _).next (noStore_yield _)))
      rcases h with h | ⟨dt, rfl⟩
      · exact Or.inl h
      · simp only [Option.some.injEq] at hp
        rw [← hp]
        exact Or.inr rfl

theorem noStore_adjustLoop (ok : Bool) (ps : List Poll) :
    ∀ d : Dev, (adjustLoop ok ps d).1 = true → NoStore d (adjustLoop ok ps d).2 := by
  induction ps with
  | nil => intro d _; exact NoStore.idle d
  | cons p ps ih =>
    intro d h
    simp only [adjustLoop] at h ⊢
    split_ifs at h ⊢ with h1
    · exact (noStore_adjustStep ok p d (Or.inl h1)).next (ih _ h)
    · exact absurd h h1

/-- C14: in a calibration session that was confirmed and has reached, still scanning, an
adjustment-phase state, the NEC code OFF ends the session: `changeLimits` returns with both
limits and both store slots as at the start of the session, without any call to
`EEPROM.write` or `EEPROM.commit`, with the relay off and the LED pin set back to HIGH (LED
dark, the state `ledOff` gives); its last two calls are the relay pin LOW and the LED pin
HIGH. -/
theorem C14_cancel_changes_nothing (d0 : Dev) (commitOk : Bool)
    (polls steps rest : List Poll) (dt : Nat) (c d : Dev)
    (hconf : confirmLoop (millis d0) polls (ledOn (resume d0)) =
      some (true, steps ++ ⟨dt, some ⟨.NEC, IR_OFF⟩⟩ :: rest, c))
    (hrun : adjustLoop commitOk steps (adjustEnter c) = (true, d)) :
    ∃ d', changeLimits polls commitOk d0 = some d' ∧
      d'.angleClosed = d0.angleClosed ∧ d'.angleOpen = d0.angleOpen ∧
      d'.eeprom0 = d0.eeprom0 ∧ d'.eeprom1 = d0.eeprom1 ∧
      (∃ es, d'.trace = d0.trace ++ es ∧ ∀ e ∈ es, e.isStore = false) ∧
      d'.relayState = false ∧ d'.ledState = true ∧
      ∃ t, d'.trace = t ++ [.relayWrite false, .ledWrite true] := by
  have hstop : (adjustStep commitOk ⟨dt, some ⟨.NEC, IR_OFF⟩⟩ d).1 = false := by
    simp [adjustStep, adjustCase, IR_UP, IR_DOWN, IR_OFF]
  refine ⟨_, changeLimits_of_commit d0 commitOk polls steps rest _ c d hconf hrun hstop, ?_⟩
  have h1 : NoStore d0 c := noStore_of_quiet
    (((quiet_resume d0).andThen (quiet_ledOn _)).andThen (quiet_confirmLoop _ _ _ _ _ _ hconf))
  have h2 : NoStore c d := by
    have := noStore_adjustLoop commitOk steps (adjustEnter c) (by rw [hrun])
    rw [hrun] at this
    exact (noStore_adjustEnter c).next this
  have h3 := noStore_adjustStep commitOk ⟨dt, some ⟨.NEC, IR_OFF⟩⟩ d (Or.inr ⟨dt, rfl⟩)
  have h4 : NoStore (adjustStep commitOk ⟨dt, some ⟨.NEC, IR_OFF⟩⟩ d).2
      (ledOff (relayOff (adjustStep commitOk ⟨dt, some ⟨.NEC, IR_OFF⟩⟩ d).2)) :=
    ⟨rfl, rfl, rfl, rfl, [.relayWrite false, .ledWrite true],
      by simp [ledOff, relayOff, emit], by simp [Effect.isStore]⟩
  obtain ⟨a1, a2, a3, a4, a5⟩ := ((h1.next h2).next h3).next h4
  exact ⟨a1, a2, a3, a4, a5, rfl, rfl, _, by simp [ledOff, relayOff, emit]; rfl⟩

/-- C14 witness: confirm, one step of +5, then OFF. -/
theorem C14_cancel_changes_nothing_witness :
    ∃ d', changeLimits
        [⟨5, some ⟨.NEC, IR_M5⟩⟩, ⟨5, some ⟨.NEC, IR_P5⟩⟩, ⟨5, some ⟨.NEC, IR_OFF⟩⟩]
        true sampleDev = some d' ∧
      d'.angleClosed = sampleDev.angleClosed ∧ d'.angleOpen = sampleDev.angleOpen ∧
      d'.eeprom0 = sampleDev.eeprom0 ∧ d'.eeprom1 = sampleDev.eeprom1 ∧
      (∃ es, d'.trace = sampleDev.trace ++ es ∧ ∀ e ∈ es, e.isStore = false) ∧
      d'.relayState = false ∧ d'.ledState = true ∧
      ∃ t, d'.trace = t ++ [.relayWrite false, .ledWrite true] :=
  C14_cancel_changes_nothing sampleDev true
    [⟨5, some ⟨.NEC, IR_M5⟩⟩, ⟨5, some ⟨.NEC, IR_P5⟩⟩, ⟨5, some ⟨.NEC, IR_OFF⟩⟩]
    [⟨5, some ⟨.NEC, IR_P5⟩⟩] [] 5
    (confirmStep (millis sampleDev) ⟨5, some ⟨.NEC, IR_M5⟩⟩ (ledOn (resume sampleDev))).2.2
    (adjustLoop true [⟨5, some ⟨.NEC, IR_P5⟩⟩]
      (adjustEnter (confirmStep (millis sampleDev) ⟨5, some ⟨.NEC, IR_M5⟩⟩
        (ledOn (resume sampleDev))).2.2)).2
    rfl rfl

/-! ## Commit: error flag and round trip through the store -/

/-- C15: in a calibration session that was confirmed and has reached, still scanning, the
adjustment-phase state `d` with working angle `w = d.angleCurrent`, the NEC code UP (commit
as open limit), resp. DOWN (commit as closed limit), makes `changeLimits` return with
`angleOpen = w`, resp. `angleClosed = w`, whatever `EEPROM.commit()` answers; `Blink` (the
error flag) is `true` when the commit fails and as in `d` when it succeeds. -/
theorem C15_commit_failure_sets_error_flag (d0 : Dev) (commitOk : Bool)
    (polls steps rest : List Poll) (dt : Nat) (v : Nat) (c d : Dev)
    (hconf : confirmLoop (millis d0) polls (ledOn (resume d0)) =
      some (true, steps ++ ⟨dt, some ⟨.NEC, v⟩⟩ :: rest, c))
    (hrun : adjustLoop commitOk steps (adjustEnter c) = (true, d)) :
    (v = IR_UP → ∃ d', changeLimits polls commitOk d0 = some d' ∧
      d'.angleOpen = d.angleCurrent ∧
      (commitOk = false → d'.Blink = true) ∧ (commitOk = true → d'.Blink = d.Blink)) ∧
    (v = IR_DOWN → ∃ d', changeLimits polls commitOk d0 = some d' ∧
      d'.angleClosed = d.angleCurrent ∧
      (commitOk = false → d'.Blink = true) ∧ (commitOk = true → d'.Blink = d.Blink)) := by
  constructor
  · rintro rfl
    refine ⟨_, changeLimits_of_commit d0 commitOk polls steps rest _ c d hconf hrun
      (by simp [adjustStep, adjustCase]), ?_⟩
    cases commitOk <;>
      simp [adjustStep, adjustCase, eepromCommit, eepromWrite, emit, resume, tick, ledOff,
        relayOff]
  · rintro rfl
    refine ⟨_, changeLimits_of_commit d0 commitOk polls steps rest _ c d hconf hrun
      (by simp [adjustStep, adjustCase, IR_UP, IR_DOWN]), ?_⟩
    cases commitOk <;>
      simp [adjustStep, adjustCase, eepromCommit, eepromWrite, emit, resume, tick, ledOff,
        relayOff, IR_UP, IR_DOWN]

/-- C15 witness: confirm, one step of +5, commit as open limit with a failing
`EEPROM.commit()`: the session returns with open = 95 and `Blink` set. -/
theorem C15_commit_failure_sets_error_flag_witness :
    ∃ d', changeLimits
        [⟨5, some ⟨.NEC, IR_M5⟩⟩, ⟨5, some ⟨.NEC, IR_P5⟩⟩, ⟨5, some ⟨.NEC, IR_UP⟩⟩]
        false sampleDev = some d' ∧
      d'.angleOpen = 95 ∧
      (false = false → d'.Blink = true) ∧ (false = true → d'.Blink = false) :=
  (C15_commit_failure_sets_error_flag sampleDev false
    [⟨5, some ⟨.NEC, IR_M5⟩⟩, ⟨5, some ⟨.NEC, IR_P5⟩⟩, ⟨5, some ⟨.NEC, IR_UP⟩⟩]
    [⟨5, some ⟨.NEC, IR_P5⟩⟩] [] 5 IR_UP
    (confirmStep (millis sampleDev) ⟨5, some ⟨.NEC, IR_M5⟩⟩ (ledOn (resume sampleDev))).2.2
    (adjustLoop false [⟨5, some ⟨.NEC, IR_P5⟩⟩]
      (adjustEnter (confirmStep (millis sampleDev) ⟨5, some ⟨.NEC, IR_M5⟩⟩
        (ledOn (resume sampleDev))).2.2)).2
    rfl rfl).1 rfl

/-- C19: a calibration session that commits the working angle `w = d.angleCurrent` as open
limit (NEC code UP), resp. closed limit (DOWN), with `EEPROM.commit()` succeeding: the byte
written equals `w` (which lies in `[0, 180]`), and after a restart from the store left by
the session `setup` loads `angleOpen = w`, resp. `angleClosed = w`. -/
theorem C19_committed_limit_round_trip (d0 : Dev)
    (polls steps rest : List Poll) (dt : Nat) (v : Nat) (c d : Dev)
    (hconf : confirmLoop (millis d0) polls (ledOn (resume d0)) =
      some (true, steps ++ ⟨dt, some ⟨.NEC, v⟩⟩ :: rest, c))
    (hrun : adjustLoop true steps (adjustEnter c) = (true, d)) :
    (0 ≤ d.angleCurrent ∧ d.angleCurrent ≤ 180 ∧ ((toByte d.angleCurrent : Nat) : Int)
      = d.angleCurrent) ∧
    (v = IR_UP → ∃ d', changeLimits polls true d0 = some d' ∧
      d'.angleOpen = d.angleCurrent ∧ (restart d').angleOpen = d.angleCurrent) ∧
    (v = IR_DOWN → ∃ d', changeLimits polls true d0 = some d' ∧
      d'.angleClosed = d.angleCurrent ∧ (restart d').angleClosed = d.angleCurrent) := by
  have ha : AngleOk d := by
    have := (adjustLoop_inv 180 (le_refl _) true steps _ (adjustEnter_inv c).2.1).1
    rw [hrun] at this
    exact this
  have hb := toByte_of_range d.angleCurrent ha.1 (by have := ha.2; omega)
  have hlt : toByte d.angleCurrent % 256 = toByte d.angleCurrent := by
    have := ha.2
    omega
  refine ⟨⟨ha.1, ha.2, hb⟩, ?_, ?_⟩
  · rintro rfl
    refine ⟨_, changeLimits_of_commit d0 true polls steps rest _ c d hconf hrun
      (by simp [adjustStep, adjustCase]), ?_, ?_⟩
    · simp [adjustStep, adjustCase, eepromCommit, eepromWrite, emit, resume, tick, ledOff,
        relayOff]
    · unfold restart
      rw [(setup_limits _ _ _).2]
      simp only [adjustStep, adjustCase, eepromCommit, eepromWrite, emit, resume, tick, ledOff,
        relayOff]
      simp [hlt, hb]
  · rintro rfl
    refine ⟨_, changeLimits_of_commit d0 true polls steps rest _ c d hconf hrun
      (by simp [adjustStep, adjustCase, IR_UP, IR_DOWN]), ?_, ?_⟩
    · simp [adjustStep, adjustCase, eepromCommit, eepromWrite, emit, resume, tick, ledOff,
        relayOff, IR_UP, IR_DOWN]
    · unfold restart
      rw [(setup_limits _ _ _).1]
      simp only [adjustStep, adjustCase, eepromCommit, eepromWrite, emit, resume, tick, ledOff,
        relayOff]
      simp [hlt, hb, IR_UP, IR_DOWN]

/-- C19 witness: confirm, four steps of -5, commit as closed limit; after a restart `setup`
loads closed = 70. -/
theorem C19_committed_limit_round_trip_witness :
    ∃ d', changeLimits
        [⟨5, some ⟨.NEC, IR_M5⟩⟩, ⟨5, some ⟨.NEC, IR_M5⟩⟩, ⟨5, some ⟨.NEC, IR_M5⟩⟩,
          ⟨5, some ⟨.NEC, IR_M5⟩⟩, ⟨5, some ⟨.NEC, IR_M5⟩⟩, ⟨5, some ⟨.NEC, IR_DOWN⟩⟩]
        true sampleDev = some d' ∧
      d'.angleClosed = 70 ∧ (restart d').angleClosed = 70 :=
  (C19_committed_limit_round_trip sampleDev
    [⟨5, some ⟨.NEC, IR_M5⟩⟩, ⟨5, some ⟨.NEC, IR_M5⟩⟩, ⟨5, some ⟨.NEC, IR_M5⟩⟩,
      ⟨5, some ⟨.NEC, IR_M5⟩⟩, ⟨5, some ⟨.NEC, IR_M5⟩⟩, ⟨5, some ⟨.NEC, IR_DOWN⟩⟩]
    [⟨5, some ⟨.NEC, IR_M5⟩⟩, ⟨5, some ⟨.NEC, IR_M5⟩⟩, ⟨5, some ⟨.NEC, IR_M5⟩⟩,
      ⟨5, some ⟨.NEC, IR_M5⟩⟩]
    [] 5 IR_DOWN
    (confirmStep (millis sampleDev) ⟨5, some ⟨.NEC, IR_M5⟩⟩ (ledOn (resume sampleDev))).2.2
    (adjustLoop true
      [⟨5, some ⟨.NEC, IR_M5⟩⟩, ⟨5, some ⟨.NEC, IR_M5⟩⟩, ⟨5, some ⟨.NEC, IR_M5⟩⟩,
        ⟨5, some ⟨.NEC, IR_M5⟩⟩]
      (adjustEnter (confirmStep (millis sampleDev) ⟨5, some ⟨.NEC, IR_M5⟩⟩
        (ledOn (resume sampleDev))).2.2)).2
    rfl rfl).2.2 rfl

/-! ## The angle between the limits in the main loop -/

theorem housekeeping_angles (d : Dev) :
    (blinkLed (relayAutoOff d)).angleCurrent = d.angleCurrent ∧
    (blinkLed (relayAutoOff d)).angleClosed = d.angleClosed ∧
    (blinkLed (relayAutoOff d)).angleOpen = d.angleOpen := by
  simp [blinkLed_angles, relayAutoOff_angles]

theorem InRange.transfer {d d' : Dev} (h : InRange d) (h1 : d'.angleCurrent = d.angleCurrent)
    (h2 : d'.angleClosed = d.angleClosed) (h3 : d'.angleOpen = d.angleOpen) : InRange d' := by
  unfold InRange
  rw [h1, h2, h3]
  exact h

theorem dispatchCase_noCalib (v : Nat) (i : LoopIn) (d d' : Dev) (hv : v ≠ IR_BLUE)
    (hlim : d.angleClosed ≤ d.angleOpen) (h : dispatchCase v i d = some d') :
    d'.angleClosed = d.angleClosed ∧ d'.angleOpen = d.angleOpen ∧
      (InRange d → InRange d') ∧
      ((v = IR_UP ∨ v = IR_DOWN ∨ v = IR_GREEN ∨ v = IR_RED) → InRange d') := by
  have hq : ∀ {b : Dev}, Quiet d b → v ≠ IR_UP → v ≠ IR_DOWN → v ≠ IR_GREEN → v ≠ IR_RED →
      b.angleClosed = d.angleClosed ∧ b.angleOpen = d.angleOpen ∧
      (InRange d → InRange b) ∧
      ((v = IR_UP ∨ v = IR_DOWN ∨ v = IR_GREEN ∨ v = IR_RED) → InRange b) := by
    intro b hb n1 n2 n3 n4
    refine ⟨hb.2.1, hb.2.2.1, fun hr => hr.transfer hb.1 hb.2.1 hb.2.2.1, ?_⟩
    rintro (h | h | h | h) <;> contradiction
  unfold dispatchCase at h
  split_ifs at h with h1 h2 h3 h4 h5 h6 h7
  · exact hq (quiet_initWifi _ _ _ h) (by rw [h1]; decide) (by rw [h1]; decide)
      (by rw [h1]; decide) (by rw [h1]; decide)
  · cases h
    exact hq (quiet_disableWifi _) (by rw [h2]; decide) (by rw [h2]; decide)
      (by rw [h2]; decide) (by rw [h2]; decide)
  · cases h
    have : InRange (openAV d) := ⟨hlim, le_refl _⟩
    exact ⟨rfl, rfl, fun _ => this, fun _ => this⟩
  · cases h
    have : InRange (closeAV d) := ⟨le_refl _, hlim⟩
    exact ⟨rfl, rfl, fun _ => this, fun _ => this⟩
  · cases h
    have : InRange (caseUp d) := constrain_mem _ _ _ hlim
    exact ⟨rfl, rfl, fun _ => this, fun _ => this⟩
  · cases h
    have : InRange (caseDown d) := constrain_mem _ _ _ hlim
    exact ⟨rfl, rfl, fun _ => this, fun _ => this⟩
  · exact hq (quiet_changeEnvControl _ _ _ h) (by rw [h7]; decide) (by rw [h7]; decide)
      (by rw [h7]; decide) (by rw [h7]; decide)
  · cases h
    exact ⟨rfl, rfl, id, by rintro (h | h | h | h) <;> contradiction⟩

theorem loop_noCalib (i : LoopIn) (d d' : Dev) (hnc : ¬ i.isCalibrate)
    (hlim : d.angleClosed ≤ d.angleOpen) (h : loop i d = some d') :
    d'.angleClosed = d.angleClosed ∧ d'.angleOpen = d.angleOpen ∧
      (InRange d → InRange d') ∧ (i.movesServo → InRange d') := by
  unfold loop at h
  simp only [Option.map_eq_some'] at h
  obtain ⟨c, hc, rfl⟩ := h
  obtain ⟨k1, k2, k3⟩ := housekeeping_angles c
  have q0 : Quiet d (maintainWifi i.connected (tick i.dt d)) :=
    (quiet_tick _ _).andThen (quiet_maintainWifi _ _)
  suffices hs : c.angleClosed = d.angleClosed ∧ c.angleOpen = d.angleOpen ∧
      (InRange d → InRange c) ∧ (i.movesServo → InRange c) by
    obtain ⟨s1, s2, s3, s4⟩ := hs
    exact ⟨k2.trans s1, k3.trans s2, fun hr => (s3 hr).transfer k1 k2 k3,
      fun hm => (s4 hm).transfer k1 k2 k3⟩
  cases hdec : i.decoded with
  | none =>
    rw [hdec] at hc
    cases hc
    refine ⟨q0.2.1, q0.2.2.1, fun hr => hr.transfer q0.1 q0.2.1 q0.2.2.1, ?_⟩
    unfold LoopIn.movesServo
    rw [hdec]
    rintro (h | h | h | h) <;> cases h
  | some res =>
    rw [hdec] at hc
    unfold dispatch at hc
    simp only [Option.map_eq_some'] at hc
    obtain ⟨b, hb, rfl⟩ := hc
    by_cases hn : res.decode_type = .NEC
    · rw [if_pos hn] at hb
      have hv : res.value ≠ IR_BLUE := by
        intro hv
        apply hnc
        unfold LoopIn.isCalibrate
        rw [hdec]
        cases res
        simp_all
      have hlim' : (maintainWifi i.connected (tick i.dt d)).angleClosed ≤
          (maintainWifi i.connected (tick i.dt d)).angleOpen := by
        rw [q0.2.1, q0.2.2.1]
        exact hlim
      obtain ⟨r1, r2, r3, r4⟩ := dispatchCase_noCalib _ i _ b hv hlim' hb
      refine ⟨r1.trans q0.2.1, r2.trans q0.2.2.1,
        fun hr => (r3 (hr.transfer q0.1 q0.2.1 q0.2.2.1)).transfer rfl rfl rfl, ?_⟩
      intro hm
      refine (r4 ?_).transfer rfl rfl rfl
      unfold LoopIn.movesServo at hm
      rw [hdec] at hm
      rcases hm with h | h | h | h <;> cases h <;> simp
    · rw [if_neg hn] at hb
      cases hb
      refine ⟨q0.2.1, q0.2.2.1, fun hr => hr.transfer q0.1 q0.2.1 q0.2.2.1, ?_⟩
      unfold LoopIn.movesServo
      rw [hdec]
      rintro (h | h | h | h) <;> cases h <;> exact absurd rfl hn

theorem runLoop_noCalib (is : List LoopIn) :
    ∀ d d' : Dev, d.angleClosed ≤ d.angleOpen → (∀ i ∈ is, ¬ i.isCalibrate) →
      runLoop is d = some d' →
      d'.angleClosed = d.angleClosed ∧ d'.angleOpen = d.angleOpen ∧
        ((InRange d ∨ ∃ i ∈ is, i.movesServo) → InRange d') := by
  induction is with
  | nil =>
    intro d d' _ _ h
    cases h
    refine ⟨rfl, rfl, ?_⟩
    rintro (h | ⟨i, hi, _⟩)
    · exact h
    · cases hi
  | cons i is ih =>
    intro d d' hlim hnc h
    simp only [runLoop, Option.bind_eq_some] at h
    obtain ⟨d1, h1, h2⟩ := h
    obtain ⟨a1, a2, a3, a4⟩ := loop_noCalib i d d1 (hnc i (List.mem_cons_self _ _)) hlim h1
    obtain ⟨b1, b2, b3⟩ := ih d1 d' (by rw [a1, a2]; exact hlim)
      (fun j hj => hnc j (List.mem_cons_of_mem _ hj)) h2
    refine ⟨b1.trans a1, b2.trans a2, ?_⟩
    rintro (h | ⟨j, hj, hm⟩)
    · exact b3 (Or.inl (a3 h))
    · rcases List.mem_cons.1 hj with rfl | hj
      · exact b3 (Or.inl (a4 hm))
      · exact b3 (Or.inr ⟨j, hj, hm⟩)

/-- C11 as stated fails.  After `setup` with the bytes 100 and 120 the angle is 90, below
the closed limit 100.  After `setup` with the bytes 80 and 100 and one aborted calibration
session the limits are 80 and 100 and the angle is 115. -/
theorem C11_counterexample :
    (Reachable 100 120 "pw" (setup (powerOn 100 120 "pw")) ∧
      (setup (powerOn 100 120 "pw")).angleCurrent = 90 ∧
      (setup (powerOn 100 120 "pw")).angleClosed = 100 ∧
      (setup (powerOn 100 120 "pw")).angleOpen = 120) ∧
    ∃ d, Reachable 80 100 "pw" d ∧ d.angleClosed = 80 ∧ d.angleOpen = 100 ∧
      d.angleCurrent = 115 := by
  refine ⟨⟨Reachable.start, by decide, by decide, by decide⟩, ?_⟩
  refine ⟨_, Reachable.step
    ⟨10, true, some ⟨.NEC, IR_BLUE⟩,
      [⟨5, some ⟨.NEC, IR_M5⟩⟩, ⟨5, some ⟨.NEC, IR_P5⟩⟩, ⟨5, some ⟨.NEC, IR_P5⟩⟩,
        ⟨5, some ⟨.NEC, IR_P5⟩⟩, ⟨5, some ⟨.NEC, IR_P5⟩⟩, ⟨5, some ⟨.NEC, IR_P5⟩⟩,
        ⟨5, some ⟨.NEC, IR_OFF⟩⟩], [], true⟩
    Reachable.start rfl, by decide, by decide, by decide⟩

/-- C11 (amended): from a state with `angleClosed ≤ angleOpen`, run iterations of `loop`
none of which starts a calibration session and at least one of which handles a motion
command (UP, DOWN, open, close); in the state reached the limits are unchanged and
`angleCurrent` lies between them.  (`setup` and calibration sessions do not move the angle
back between the limits.) -/
theorem C11_angle_within_limits_after_motion (d d' : Dev) (is : List LoopIn)
    (hlim : d.angleClosed ≤ d.angleOpen)
    (hnc : ∀ i ∈ is, ¬ i.isCalibrate)
    (hmot : ∃ i ∈ is, i.movesServo)
    (hrun : runLoop is d = some d') :
    d'.angleClosed = d.angleClosed ∧ d'.angleOpen = d.angleOpen ∧
      d'.angleClosed ≤ d'.angleCurrent ∧ d'.angleCurrent ≤ d'.angleOpen := by
  obtain ⟨h1, h2, h3⟩ := runLoop_noCalib is d d' hlim hnc hrun
  exact ⟨h1, h2, h3 (Or.inr hmot)⟩

/-- C11 witness: after the aborted calibration session (limits 80 and 100, angle 115), an
UP command, an unknown code and an idle iteration lead to the angle 100. -/
theorem C11_angle_within_limits_after_motion_witness :
    abortedDev.angleCurrent = 115 ∧
    ((runLoop [{ idleIn with decoded := some ⟨.NEC, IR_UP⟩ },
          { idleIn with decoded := some ⟨.NEC, IR_P1⟩ }, idleIn] abortedDev).getD
        abortedDev).angleCurrent = 100 ∧
    (((runLoop [{ idleIn with decoded := some ⟨.NEC, IR_UP⟩ },
          { idleIn with decoded := some ⟨.NEC, IR_P1⟩ }, idleIn] abortedDev).getD
        abortedDev).angleClosed = abortedDev.angleClosed ∧
      ((runLoop [{ idleIn with decoded := some ⟨.NEC, IR_UP⟩ },
          { idleIn with decoded := some ⟨.NEC, IR_P1⟩ }, idleIn] abortedDev).getD
        abortedDev).angleOpen = abortedDev.angleOpen ∧
      ((runLoop [{ idleIn with decoded := some ⟨.NEC, IR_UP⟩ },
          { idleIn with decoded := some ⟨.NEC, IR_P1⟩ }, idleIn] abortedDev).getD
        abortedDev).angleClosed ≤
        ((runLoop [{ idleIn with decoded := some ⟨.NEC, IR_UP⟩ },
          { idleIn with decoded := some ⟨.NEC, IR_P1⟩ }, idleIn] abortedDev).getD
        abortedDev).angleCurrent ∧
      ((runLoop [{ idleIn with decoded := some ⟨.NEC, IR_UP⟩ },
          { idleIn with decoded := some ⟨.NEC, IR_P1⟩ }, idleIn] abortedDev).getD
        abortedDev).angleCurrent ≤
        ((runLoop [{ idleIn with decoded := some ⟨.NEC, IR_UP⟩ },
          { idleIn with decoded := some ⟨.NEC, IR_P1⟩ }, idleIn] abortedDev).getD
        abortedDev).angleOpen) :=
  ⟨by decide, by decide,
    C11_angle_within_limits_after_motion abortedDev _
      [{ idleIn with decoded := some ⟨.NEC, IR_UP⟩ },
        { idleIn with decoded := some ⟨.NEC, IR_P1⟩ }, idleIn]
      (by decide) (by decide) (by decide) rfl⟩

/-! ## Servo commands along the trace -/

theorem relayAfter_append (r : Bool) (es fs : List Effect) :
    relayAfter r (es ++ fs) = relayAfter (relayAfter r es) fs := by
  induction es generalizing r with
  | nil => rfl
  | cons e es ih => cases e <;> simp [relayAfter, ih]

theorem servoAll_append (Q : Bool → Int → Bool) (r : Bool) (es fs : List Effect) :
    servoAll Q r (es ++ fs) = (servoAll Q r es && servoAll Q (relayAfter r es) fs) := by
  induction es generalizing r with
  | nil => simp [servoAll, relayAfter]
  | cons e es ih => cases e <;> simp [servoAll, relayAfter, ih, Bool.and_assoc]

theorem servoAll_of_quiet (Q : Bool → Int → Bool) (r : Bool) (es : List Effect)
    (h : ∀ e ∈ es, e.isQuiet = true) : servoAll Q r es = true ∧ relayAfter r es = r := by
  induction es with
  | nil => exact ⟨rfl, rfl⟩
  | cons e es ih =>
    have he := h e (List.mem_cons_self _ _)
    have ht := ih (fun x hx => h x (List.mem_cons_of_mem _ hx))
    cases e <;> simp_all [servoAll, relayAfter, Effect.isQuiet]

theorem Along.stay (Q : Bool → Int → Bool) (d : Dev) : Along Q d d :=
  ⟨[], by simp, rfl, rfl⟩

theorem Along.seq {Q : Bool → Int → Bool} {a b c : Dev} (h1 : Along Q a b)
    (h2 : Along Q b c) : Along Q a c := by
  obtain ⟨es, hes, hs, hr⟩ := h1
  obtain ⟨fs, hfs, ht, hq⟩ := h2
  refine ⟨es ++ fs, by rw [hfs, hes, List.append_assoc], ?_, ?_⟩
  · rw [servoAll_append, hs, hr, ht]
    rfl
  · rw [relayAfter_append, hr, hq]

theorem along_of_quiet (Q : Bool → Int → Bool) {d d' : Dev} (h : Quiet d d') :
    Along Q d d' := by
  obtain ⟨_, _, _, h4, _, _, _, _, es, hes, hq⟩ := h
  obtain ⟨h1, h2⟩ := servoAll_of_quiet Q d.relayState es hq
  exact ⟨es, hes, h1, by rw [h2, h4]⟩

theorem along_of_fields (Q : Bool → Int → Bool) {d d' : Dev} (ht : d'.trace = d.trace)
    (hr : d'.relayState = d.relayState) : Along Q d d' :=
  ⟨[], by simp [ht], rfl, by rw [hr]; rfl⟩

theorem along_relayOn (Q : Bool → Int → Bool) (d : Dev) : Along Q d (relayOn d) :=
  ⟨[.relayWrite true], rfl, rfl, rfl⟩

theorem along_relayOff (Q : Bool → Int → Bool) (d : Dev) : Along Q d (relayOff d) :=
  ⟨[.relayWrite false], rfl, rfl, rfl⟩

theorem along_servoWrite (Q : Bool → Int → Bool) (d : Dev)
    (h : Q d.relayState d.angleCurrent = true) : Along Q d (servoWrite d) :=
  ⟨[.servoWrite d.angleCurrent], rfl, by simp [servoAll, h], rfl⟩

theorem along_eepromWrite (Q : Bool → Int → Bool) (slot : Nat) (v : Int) (d : Dev) :
    Along Q d (eepromWrite slot v d) := by
  refine ⟨[.eepromWrite slot (toByte v)], ?_, rfl, ?_⟩
  · unfold eepromWrite
    split_ifs <;> rfl
  · unfold eepromWrite
    split_ifs <;> rfl

theorem along_eepromCommit (Q : Bool → Int → Bool) (ok : Bool) (d : Dev) :
    Along Q d (eepromCommit ok d) := by
  cases ok <;> exact ⟨[.eepromCommit _], rfl, rfl, rfl⟩

theorem along_openAV (Q : Bool → Int → Bool) (d : Dev) (h : Q true d.angleOpen = true) :
    Along Q d (openAV d) :=
  ⟨[.resume, .relayWrite true, .delay 100, .servoWrite d.angleOpen],
    by simp [openAV, relayOn, servoWrite, delay, tick, resume, emit],
    by simp [servoAll, h], rfl⟩

theorem along_closeAV (Q : Bool → Int → Bool) (d : Dev) (h : Q true d.angleClosed = true) :
    Along Q d (closeAV d) :=
  ⟨[.resume, .relayWrite true, .delay 100, .servoWrite d.angleClosed],
    by simp [closeAV, relayOn, servoWrite, delay, tick, resume, emit],
    by simp [servoAll, h], rfl⟩

theorem along_caseUp (Q : Bool → Int → Bool) (d : Dev)
    (h : Q true (constrain (d.angleCurrent + 5) d.angleClosed d.angleOpen) = true) :
    Along Q d (caseUp d) :=
  ⟨[.relayWrite true, .servoWrite (constrain (d.angleCurrent + 5) d.angleClosed d.angleOpen)],
    by simp [caseUp, relayOn, servoWrite, emit], by simp [servoAll, h], rfl⟩

theorem along_caseDown (Q : Bool → Int → Bool) (d : Dev)
    (h : Q true (constrain (d.angleCurrent - 5) d.angleClosed d.angleOpen) = true) :
    Along Q d (caseDown d) :=
  ⟨[.relayWrite true, .servoWrite (constrain (d.angleCurrent - 5) d.angleClosed d.angleOpen)],
    by simp [caseDown, relayOn, servoWrite, emit], by simp [servoAll, h], rfl⟩

theorem along_adjustCase (Q : Bool → Int → Bool)
    (hQ : ∀ a : Int, 0 ≤ a → a ≤ 180 → Q true a = true) (ok : Bool) (v : Nat) (d : Dev)
    (hr : d.relayState = true) (ha : AngleOk d) :
    Along Q d (adjustCase ok v d).2 ∧ (adjustCase ok v d).2.relayState = true := by
  obtain ⟨h0, h1⟩ := ha
  have c1 := constrain_mem (d.angleCurrent + 5) 0 180 (by omega)
  have c2 := constrain_mem (d.angleCurrent + 1) 0 180 (by omega)
  have c3 := constrain_mem (d.angleCurrent - 1) 0 180 (by omega)
  have c4 := constrain_mem (d.angleCurrent - 5) 0 180 (by omega)
  have hstep : ∀ a : Int, 0 ≤ a → a ≤ 180 →
      Along Q d (servoWrite { d with angleCurrent := a }) := by
    intro a a0 a1
    exact ⟨[.servoWrite a], rfl, by simp [servoAll, hr, hQ a a0 a1], rfl⟩
  unfold adjustCase
  split_ifs
  · refine ⟨?_, ?_⟩
    · exact (@along_of_fields Q d { d with angleOpen := d.angleCurrent } rfl rfl).seq
        ((along_eepromWrite Q 1 _ _).seq (along_eepromCommit Q ok _))
    · cases ok <;> simpa [eepromCommit, eepromWrite, emit] using hr
  · refine ⟨?_, ?_⟩
    · exact (@along_of_fields Q d { d with angleClosed := d.angleCurrent } rfl rfl).seq
        ((along_eepromWrite Q 0 _ _).seq (along_eepromCommit Q ok _))
    · cases ok <;> simpa [eepromCommit, eepromWrite, emit] using hr
  · exact ⟨Along.stay Q d, hr⟩
  · exact ⟨hstep _ c1.1 c1.2, hr⟩
  · exact ⟨hstep _ c2.1 c2.2, hr⟩
  · exact ⟨hstep _ c3.1 c3.2, hr⟩
  · exact ⟨hstep _ c4.1 c4.2, hr⟩
  · exact ⟨Along.stay Q d, hr⟩

theorem along_adjustStep (Q : Bool → Int → Bool)
    (hQ : ∀ a : Int, 0 ≤ a → a ≤ 180 → Q true a = true) (ok : Bool) (p : Poll) (d : Dev)
    (hr : d.relayState = true) (ha : AngleOk d) :
    Along Q d (adjustStep ok p d).2 ∧ (adjustStep ok p d).2.relayState = true := by
  have h0 : Along Q d (tick p.dt d) := along_of_quiet Q (quiet_tick _ _)
  unfold adjustStep
  cases hp : p.decoded with
  | none => exact ⟨h0.seq (along_of_quiet Q (quiet_yield _)), hr⟩
  | some res =>
    simp only
    split_ifs
    · exact ⟨h0.seq (along_of_quiet Q ((quiet_resume _).andThen (quiet_yield _))), hr⟩
    · obtain ⟨h1, h2⟩ := along_adjustCase Q hQ ok res.value (tick p.dt d) hr ha
      exact ⟨h0.seq (h1.seq (along_of_quiet Q ((quiet_resume _).andThen (quiet_yield _)))),
        h2⟩

theorem along_adjustLoop (Q : Bool → Int → Bool)
    (hQ : ∀ a : Int, 0 ≤ a → a ≤ 180 → Q true a = true) (ok : Bool) (ps : List Poll) :
    ∀ d : Dev, d.relayState = true → AngleOk d →
      Along Q d (adjustLoop ok ps d).2 ∧ (adjustLoop ok ps d).2.relayState = true := by
  induction ps with
  | nil => intro d hr _; exact ⟨Along.stay Q d, hr⟩
  | cons p ps ih =>
    intro d hr ha
    obtain ⟨h1, h2⟩ := along_adjustStep Q hQ ok p d hr ha
    have h3 := (adjustStep_inv 180 (le_refl _) ok p d ha).1
    simp only [adjustLoop]
    split_ifs
    · obtain ⟨h4, h5⟩ := ih _ h2 h3
      exact ⟨h1.seq h4, h5⟩
    · exact ⟨h1, h2⟩

theorem along_adjustEnter (Q : Bool → Int → Bool)
    (hQ : ∀ a : Int, 0 ≤ a → a ≤ 180 → Q true a = true) (d : Dev) :
    Along Q d (adjustEnter d) ∧ (adjustEnter d).relayState = true :=
  ⟨⟨[.relayWrite true, .servoWrite 90], by simp [adjustEnter, relayOn, servoWrite, emit],
    by simp [servoAll, hQ 90 (by decide) (by decide)], rfl⟩, rfl⟩

theorem along_changeLimits (Q : Bool → Int → Bool)
    (hQ : ∀ a : Int, 0 ≤ a → a ≤ 180 → Q true a = true) (ps : List Poll) (ok : Bool)
    (d d' : Dev) (h : changeLimits ps ok d = some d') : Along Q d d' := by
  unfold changeLimits at h
  simp only at h
  split at h
  · cases h
  · rename_i a rest c heq
    have hq : Along Q d c := along_of_quiet Q
      (((quiet_resume d).andThen (quiet_ledOn _)).andThen
        (quiet_confirmLoop _ _ _ _ _ _ heq))
    split_ifs at h
    · simp only [Option.some.injEq] at h
      rw [← h]
      obtain ⟨e1, e2⟩ := along_adjustEnter Q hQ c
      obtain ⟨l1, _⟩ := along_adjustLoop Q hQ ok rest _ e2 (adjustEnter_inv c).2.1
      exact hq.seq <| e1.seq <| l1.seq <| (along_relayOff Q _).seq
        (along_of_quiet Q (quiet_ledOff _))
    · simp only [Option.some.injEq] at h
      rw [← h]
      exact hq.seq (along_of_quiet Q (quiet_ledOff _))

theorem along_dispatchCase (Q : Bool → Int → Bool)
    (hQ : ∀ a : Int, 0 ≤ a → a ≤ 180 → Q true a = true) (v : Nat) (i : LoopIn) (d d' : Dev)
    (h1 : Q true d.angleOpen = true) (h2 : Q true d.angleClosed = true)
    (h3 : Q true (constrain (d.angleCurrent + 5) d.angleClosed d.angleOpen) = true)
    (h4 : Q true (constrain (d.angleCurrent - 5) d.angleClosed d.angleOpen) = true)
    (h : dispatchCase v i d = some d') : Along Q d d' := by
  unfold dispatchCase at h
  split_ifs at h
  · exact along_of_quiet Q (quiet_initWifi _ _ _ h)
  · cases h; exact along_of_quiet Q (quiet_disableWifi _)
  · cases h; exact along_openAV Q d h1
  · cases h; exact along_closeAV Q d h2
  · cases h; exact along_caseUp Q d h3
  · cases h; exact along_caseDown Q d h4
  · exact along_of_quiet Q (quiet_changeEnvControl _ _ _ h)
  · exact along_changeLimits Q hQ _ _ _ _ h
  · cases h; exact Along.stay Q d

theorem along_relayAutoOff (Q : Bool → Int → Bool) (d : Dev) : Along Q d (relayAutoOff d) := by
  unfold relayAutoOff
  split_ifs
  · exact along_relayOff Q d
  · exact Along.stay Q d

theorem along_loop (Q : Bool → Int → Bool)
    (hQ : ∀ a : Int, 0 ≤ a → a ≤ 180 → Q true a = true) (i : LoopIn) (d d' : Dev)
    (h1 : Q true d.angleOpen = true) (h2 : Q true d.angleClosed = true)
    (h3 : Q true (constrain (d.angleCurrent + 5) d.angleClosed d.angleOpen) = true)
    (h4 : Q true (constrain (d.angleCurrent - 5) d.angleClosed d.angleOpen) = true)
    (h : loop i d = some d') : Along Q d d' := by
  unfold loop at h
  simp only [Option.map_eq_some'] at h
  obtain ⟨c, hc, rfl⟩ := h
  have q0 : Quiet d (maintainWifi i.connected (tick i.dt d)) :=
    (quiet_tick _ _).andThen (quiet_maintainWifi _ _)
  have hk : Along Q c (blinkLed (relayAutoOff c)) :=
    (along_relayAutoOff Q c).seq (along_of_quiet Q (quiet_blinkLed _))
  refine Along.seq ?_ hk
  split at hc
  · cases hc
    exact along_of_quiet Q q0
  · unfold dispatch at hc
    simp only [Option.map_eq_some'] at hc
    obtain ⟨b, hb, rfl⟩ := hc
    refine (along_of_quiet Q q0).seq (Along.seq ?_ (along_of_quiet Q (quiet_resume b)))
    split_ifs at hb
    · refine along_dispatchCase Q hQ _ i _ b ?_ ?_ ?_ ?_ hb
      · rw [q0.2.2.1]; exact h1
      · rw [q0.2.1]; exact h2
      · rw [q0.1, q0.2.1, q0.2.2.1]; exact h3
      · rw [q0.1, q0.2.1, q0.2.2.1]; exact h4
    · cases hb
      exact Along.stay Q _

theorem along_setup (Q : Bool → Int → Bool) (e0 e1 : Nat) (pwd : String) :
    servoAll Q false (setup (powerOn e0 e1 pwd)).trace = true ∧
      relayAfter false (setup (powerOn e0 e1 pwd)).trace =
        (setup (powerOn e0 e1 pwd)).relayState := by
  have ht : (setup (powerOn e0 e1 pwd)).trace =
      [.ledWrite true, .servoAttach, .irEnable, .wifiSoftAPdisconnect, .wifiMode,
        .wifiDisconnect, .delay 100] := by
    simp [setup, powerOn, ledOff, delay, tick, emit]
  rw [ht]
  exact ⟨rfl, rfl⟩

theorem along_trace {Q : Bool → Int → Bool} {d d' : Dev} (h : Along Q d d')
    (hd : servoAll Q false d.trace = true ∧ relayAfter false d.trace = d.relayState) :
    servoAll Q false d'.trace = true ∧ relayAfter false d'.trace = d'.relayState := by
  obtain ⟨es, hes, hs, hr⟩ := h
  rw [hes, servoAll_append, relayAfter_append, hd.1, hd.2, hs, hr]
  exact ⟨rfl, rfl⟩

/-! ## The relay at the servo commands -/

theorem reachable_relayEngaged (e0 e1 : Nat) (pwd : String) (d : Dev)
    (h : Reachable e0 e1 pwd d) :
    servoAll relayEngaged false d.trace = true ∧ relayAfter false d.trace = d.relayState := by
  induction h with
  | start => exact along_setup relayEngaged e0 e1 pwd
  | step i _ hstep ih =>
    exact along_trace
      (along_loop relayEngaged (fun _ _ _ => rfl) i _ _ rfl rfl rfl rfl hstep) ih

/-- C17: in every state reachable after power-on, each servo command `s.write` in the trace
was issued while the relay pin was HIGH (the pin is LOW at power-on and follows the
`digitalWrite` calls), and `relayState` is the level of the pin.  The same holds in every
state of the adjustment phase of a calibration session started from a reachable state, where
moreover the relay is engaged throughout. -/
theorem C17_relay_engaged_at_servo_commands (e0 e1 : Nat) (pwd : String) (d : Dev)
    (h : Reachable e0 e1 pwd d) :
    (servoAll relayEngaged false d.trace = true ∧ relayAfter false d.trace = d.relayState) ∧
    ∀ (i : LoopIn) (polls rest : List Poll) (c : Dev),
      confirmLoop (millis (maintainWifi i.connected (tick i.dt d))) polls
        (ledOn (resume (maintainWifi i.connected (tick i.dt d)))) = some (true, rest, c) →
      ∀ (commitOk : Bool) (n : Nat),
        servoAll relayEngaged false
          (adjustLoop commitOk (rest.take n) (adjustEnter c)).2.trace = true ∧
        relayAfter false (adjustLoop commitOk (rest.take n) (adjustEnter c)).2.trace = true ∧
        (adjustLoop commitOk (rest.take n) (adjustEnter c)).2.relayState = true := by
  have hd := reachable_relayEngaged e0 e1 pwd d h
  refine ⟨hd, ?_⟩
  intro i polls rest c hc commitOk n
  have hQ : ∀ a : Int, 0 ≤ a → a ≤ 180 → relayEngaged true a = true := fun _ _ _ => rfl
  have q : Quiet d c :=
    ((quiet_tick _ _).andThen (quiet_maintainWifi _ _)).andThen <|
      ((quiet_resume _).andThen (quiet_ledOn _)).andThen (quiet_confirmLoop _ _ _ _ _ _ hc)
  obtain ⟨e1, e2⟩ := along_adjustEnter relayEngaged hQ c
  obtain ⟨l1, l2⟩ := along_adjustLoop relayEngaged hQ commitOk (rest.take n) _ e2
    (adjustEnter_inv c).2.1
  have := along_trace (((along_of_quiet relayEngaged q).seq e1).seq l1) hd
  exact ⟨this.1, by rw [this.2, l2], l2⟩

/-- C17 witness: the state after `setup` and one UP command; its trace holds one servo
command, issued after the relay pin was set HIGH. -/
theorem C17_relay_engaged_at_servo_commands_witness :
    Effect.servoWrite 95 ∈ movedDev.trace ∧
    (servoAll relayEngaged false movedDev.trace = true ∧
      relayAfter false movedDev.trace = movedDev.relayState) :=
  ⟨by decide,
    (C17_relay_engaged_at_servo_commands 80 100 "pw" movedDev
      (Reachable.step { idleIn with decoded := some ⟨.NEC, IR_UP⟩ } Reachable.start rfl)).1⟩

theorem servoAll_relayEngaged_rejects :
    servoAll relayEngaged false [.relayWrite true, .relayWrite false, .servoWrite 90] = false := by
  decide

/-! ## Angles in `[0, 180]` -/

theorem constrain_within (x lo hi : Int) (h0 : 0 ≤ lo) (h1 : lo ≤ 180) (h2 : 0 ≤ hi)
    (h3 : hi ≤ 180) : 0 ≤ constrain x lo hi ∧ constrain x lo hi ≤ 180 := by
  unfold constrain
  split_ifs <;> omega

theorem constrain_inverted (x lo hi : Int) (h : hi < lo) :
    constrain x lo hi = lo ∨ constrain x lo hi = hi := by
  unfold constrain
  split_ifs
  · exact Or.inl rfl
  · exact Or.inr rfl
  · omega

theorem servoAll_angle_mem (r : Bool) (es : List Effect)
    (h : servoAll angleInRange r es = true) :
    ∀ a : Int, Effect.servoWrite a ∈ es → 0 ≤ a ∧ a ≤ 180 := by
  induction es generalizing r with
  | nil => intro a ha; cases ha
  | cons e es ih =>
    intro a ha
    have hm := List.mem_cons.1 ha
    clear ha
    cases e with
    | servoWrite b =>
      simp only [servoAll, angleInRange, Bool.and_eq_true, decide_eq_true_eq] at h
      rcases hm with hm | hm
      · cases hm
        exact h.1
      · exact ih r h.2 a hm
    | relayWrite b =>
      rcases hm with hm | hm
      · cases hm
      · exact ih b h a hm
    | _ =>
      rcases hm with hm | hm
      · cases hm
      · exact ih r h a hm

theorem angleInRange_ok : ∀ a : Int, 0 ≤ a → a ≤ 180 → angleInRange true a = true := by
  intro a h0 h1
  simp [angleInRange, h0, h1]

theorem AngleOk.carry {d d' : Dev} (h : AngleOk d) (h1 : d'.angleCurrent = d.angleCurrent) :
    AngleOk d' := by
  unfold AngleOk
  rw [h1]
  exact h

theorem changeLimits_angleOk (ps : List Poll) (ok : Bool) (d d' : Dev)
    (h : changeLimits ps ok d = some d') (ha : AngleOk d) : AngleOk d' := by
  unfold changeLimits at h
  simp only at h
  split at h
  · cases h
  · rename_i a rest c heq
    have hq : Quiet d c :=
      ((quiet_resume d).andThen (quiet_ledOn _)).andThen (quiet_confirmLoop _ _ _ _ _ _ heq)
    split_ifs at h
    · simp only [Option.some.injEq] at h
      rw [← h]
      exact (adjustLoop_inv 180 (le_refl _) ok rest _ (adjustEnter_inv c).2.1).1
    · simp only [Option.some.injEq] at h
      rw [← h]
      exact ha.carry hq.1

theorem dispatchCase_angleOk (v : Nat) (i : LoopIn) (d d' : Dev)
    (h : dispatchCase v i d = some d') (hl : LimitsWithin 180 d) (ha : AngleOk d) :
    AngleOk d' := by
  obtain ⟨l0, l1, l2, l3⟩ := hl
  unfold dispatchCase at h
  split_ifs at h
  · exact ha.carry (quiet_initWifi _ _ _ h).1
  · cases h; exact ha.carry (quiet_disableWifi _).1
  · cases h; exact ⟨l2, l3⟩
  · cases h; exact ⟨l0, l1⟩
  · cases h; exact constrain_within _ _ _ l0 l1 l2 l3
  · cases h; exact constrain_within _ _ _ l0 l1 l2 l3
  · exact ha.carry (quiet_changeEnvControl _ _ _ h).1
  · exact changeLimits_angleOk _ _ _ _ h ha
  · cases h; exact ha

theorem loop_angleOk (i : LoopIn) (d d' : Dev) (h : loop i d = some d')
    (hl : LimitsWithin 180 d) (ha : AngleOk d) : AngleOk d' := by
  unfold loop at h
  simp only [Option.map_eq_some'] at h
  obtain ⟨c, hc, rfl⟩ := h
  have q0 : Quiet d (maintainWifi i.connected (tick i.dt d)) :=
    (quiet_tick _ _).andThen (quiet_maintainWifi _ _)
  refine AngleOk.carry ?_ (housekeeping_angles c).1
  split at hc
  · cases hc
    exact ha.carry q0.1
  · unfold dispatch at hc
    simp only [Option.map_eq_some'] at hc
    obtain ⟨b, hb, rfl⟩ := hc
    refine AngleOk.carry ?_ (quiet_resume b).1
    split_ifs at hb
    · exact dispatchCase_angleOk _ i _ b hb (hl.of_quiet q0) (ha.carry q0.1)
    · cases hb
      exact ha.carry q0.1

theorem reachable_angleOk (e0 e1 : Nat) (pwd : String) (h0 : e0 ≤ 180) (h1 : e1 ≤ 180)
    (d : Dev) (h : Reachable e0 e1 pwd d) : LimitsWithin 180 d ∧ AngleOk d := by
  refine ⟨reachable_limits 180 (le_refl _) e0 e1 pwd (by omega) (by omega) d h, ?_⟩
  induction h with
  | start =>
    have : (setup (powerOn e0 e1 pwd)).angleCurrent = 90 := by
      simp [setup, powerOn, delay, tick, emit, ledOff]
    unfold AngleOk
    rw [this]
    decide
  | step i hr hstep ih =>
    exact loop_angleOk i _ _ hstep
      (reachable_limits 180 (le_refl _) e0 e1 pwd (by omega) (by omega) _ hr) ih

theorem reachable_angleInRange (e0 e1 : Nat) (pwd : String) (h0 : e0 ≤ 180) (h1 : e1 ≤ 180)
    (d : Dev) (h : Reachable e0 e1 pwd d) :
    servoAll angleInRange false d.trace = true ∧ relayAfter false d.trace = d.relayState := by
  induction h with
  | start => exact along_setup angleInRange e0 e1 pwd
  | step i hr hstep ih =>
    obtain ⟨⟨l0, l1, l2, l3⟩, _⟩ := reachable_angleOk e0 e1 pwd h0 h1 _ hr
    refine along_trace (along_loop angleInRange angleInRange_ok i _ _ ?_ ?_ ?_ ?_ hstep) ih
    · exact angleInRange_ok _ l2 l3
    · exact angleInRange_ok _ l0 l1
    · exact angleInRange_ok _ (constrain_within _ _ _ l0 l1 l2 l3).1
        (constrain_within _ _ _ l0 l1 l2 l3).2
    · exact angleInRange_ok _ (constrain_within _ _ _ l0 l1 l2 l3).1
        (constrain_within _ _ _ l0 l1 l2 l3).2

theorem loop_move_inverted (i : LoopIn) (d : Dev) (h : i.isMove)
    (hinv : d.angleOpen < d.angleClosed) :
    ∃ d', loop i d = some d' ∧
      (d'.angleCurrent = d.angleClosed ∨ d'.angleCurrent = d.angleOpen) := by
  rcases h with h | h
  · refine ⟨_, by simp only [loop, h, dispatch, dispatchCase, Option.map_some']; rfl, ?_⟩
    simp [blinkLed_angles, relayAutoOff_angles, maintainWifi_angles, tick, resume, emit,
      caseUp, relayOn, servoWrite]
    exact constrain_inverted _ _ _ hinv
  · refine ⟨_, by simp only [loop, h, dispatch, dispatchCase, Option.map_some']; rfl, ?_⟩
    simp [blinkLed_angles, relayAutoOff_angles, maintainWifi_angles, tick, resume, emit,
      caseDown, relayOn, servoWrite]
    exact constrain_inverted _ _ _ hinv

/-- C20: when the two bytes loaded by `setup` are at most 180, every state reachable after
power-on has `angleClosed`, `angleOpen` and `angleCurrent` in `[0, 180]`, and every servo
command `s.write(a)` in its trace has `a` in `[0, 180]`, whatever the order of the limits.
Every servo command of an adjustment phase, entered from any state, is in `[0, 180]` as well.
With inverted limits (`angleOpen < angleClosed`) an UP or DOWN command leaves `angleCurrent`
equal to one of the two limits. -/
theorem C20_angles_stay_in_mechanical_range (e0 e1 : Nat) (pwd : String) (d : Dev)
    (h0 : e0 ≤ 180) (h1 : e1 ≤ 180) (h : Reachable e0 e1 pwd d) :
    (0 ≤ d.angleClosed ∧ d.angleClosed ≤ 180 ∧ 0 ≤ d.angleOpen ∧ d.angleOpen ≤ 180 ∧
      0 ≤ d.angleCurrent ∧ d.angleCurrent ≤ 180) ∧
    (∀ a : Int, Effect.servoWrite a ∈ d.trace → 0 ≤ a ∧ a ≤ 180) ∧
    (∀ (c : Dev) (commitOk : Bool) (ps : List Poll), ∃ es,
      (adjustLoop commitOk ps (adjustEnter c)).2.trace = c.trace ++ es ∧
      ∀ a : Int, Effect.servoWrite a ∈ es → 0 ≤ a ∧ a ≤ 180) ∧
    (∀ i : LoopIn, i.isMove → d.angleOpen < d.angleClosed →
      ∃ d', loop i d = some d' ∧
        (d'.angleCurrent = d.angleClosed ∨ d'.angleCurrent = d.angleOpen)) := by
  obtain ⟨⟨l0, l1, l2, l3⟩, a0, a1⟩ := reachable_angleOk e0 e1 pwd h0 h1 d h
  refine ⟨⟨l0, l1, l2, l3, a0, a1⟩, ?_, ?_, ?_⟩
  · exact servoAll_angle_mem false d.trace (reachable_angleInRange e0 e1 pwd h0 h1 d h).1
  · intro c commitOk ps
    obtain ⟨e1, e2⟩ := along_adjustEnter angleInRange angleInRange_ok c
    obtain ⟨l1, _⟩ := along_adjustLoop angleInRange angleInRange_ok commitOk ps _ e2
      (adjustEnter_inv c).2.1
    obtain ⟨es, hes, hs, _⟩ := e1.seq l1
    exact ⟨es, hes, servoAll_angle_mem _ es hs⟩
  · intro i hi hinv
    exact loop_move_inverted i d hi hinv

/-- C20 witness: after `setup` and one UP command the angles are in range; after `setup`
with the inverted bytes 120 and 60 an UP command leaves the angle on a limit. -/
theorem C20_angles_stay_in_mechanical_range_witness :
    (0 ≤ movedDev.angleClosed ∧ movedDev.angleClosed ≤ 180 ∧ 0 ≤ movedDev.angleOpen ∧
      movedDev.angleOpen ≤ 180 ∧ 0 ≤ movedDev.angleCurrent ∧ movedDev.angleCurrent ≤ 180) ∧
    ∃ d', loop { idleIn with decoded := some ⟨.NEC, IR_UP⟩ } (setup (powerOn 120 60 "pw"))
        = some d' ∧
      (d'.angleCurrent = (setup (powerOn 120 60 "pw")).angleClosed ∨
        d'.angleCurrent = (setup (powerOn 120 60 "pw")).angleOpen) :=
  ⟨(C20_angles_stay_in_mechanical_range 80 100 "pw" movedDev (by decide) (by decide)
      (Reachable.step { idleIn with decoded := some ⟨.NEC, IR_UP⟩ } Reachable.start rfl)).1,
    (C20_angles_stay_in_mechanical_range 120 60 "pw" (setup (powerOn 120 60 "pw"))
      (by decide) (by decide) Reachable.start).2.2.2
      { idleIn with decoded := some ⟨.NEC, IR_UP⟩ } (by decide) (by decide)⟩

/-! ## Association loop of `initWifi` -/

theorem initWifi_begun (sts rest : List wl_status_t) (st : wl_status_t) (d c : Dev)
    (hoff : d.Wifienabled = false) (hpwd : d.WIFI_PWD ≠ "")
    (h : connectLoop (millis (wifiBegun d)) sts (wifiBegun d) = some (st :: rest, c)) :
    initWifi sts d =
      if st = .WL_CONNECTED then some { c with Blink := false, Wifienabled := true }
      else some c := by
  have h1 : (resume d).Wifienabled = false := by simpa [resume, emit] using hoff
  have h2 : ¬ (emit .thingSpeakBegin (emit .wifiMode (emit .wifiHostname
      (delay 100 (emit .wifiDisconnect (resume d)))))).WIFI_PWD = "" := by
    simpa [resume, emit, delay, tick] using hpwd
  unfold wifiBegun at h
  unfold initWifi
  simp only [h1, Bool.false_eq_true, if_false, if_neg h2, h]

theorem connectLoop_rounds (T0 : Nat) (tail : List wl_status_t)
    (rounds : List (wl_status_t × wl_status_t)) :
    ∀ d : Dev, (∀ r ∈ rounds, r.1 ≠ .WL_CONNECTED ∧ r.2 ≠ .WL_WRONG_PASSWORD) →
      T0 ≤ d.clock → d.clock + 1000 * rounds.length - T0 < 4294967296 →
      (∃ rest c k, connectLoop (T0 % 4294967296) (flatRounds rounds ++ tail) d = some (rest, c) ∧
          c.Blink = true ∧ c.Wifienabled = false ∧
          (∃ rs, rest = flatRounds rs ++ tail ∧ ∀ r ∈ rs, r.1 ≠ .WL_CONNECTED) ∧
          k ≤ rounds.length ∧ 10000 < d.clock + 1000 * k - T0) ∨
      (∃ c, connectLoop (T0 % 4294967296) (flatRounds rounds ++ tail) d =
            connectLoop (T0 % 4294967296) tail c ∧
          c.clock = d.clock + 1000 * rounds.length ∧ c.Blink = d.Blink ∧
          c.Wifienabled = d.Wifienabled ∧
          (rounds ≠ [] → d.clock + 1000 * rounds.length - T0 ≤ 10000)) := by
  induction rounds with
  | nil =>
    intro d _ _ _
    exact Or.inr ⟨d, rfl, by simp, rfl, rfl, fun h => absurd rfl h⟩
  | cons r rounds ih =>
    intro d hr hT hw
    obtain ⟨hr1, hr2⟩ := hr r (List.mem_cons_self _ _)
    have hrs : ∀ x ∈ rounds, x.1 ≠ .WL_CONNECTED ∧ x.2 ≠ .WL_WRONG_PASSWORD :=
      fun x hx => hr x (List.mem_cons_of_mem _ hx)
    simp only [List.length_cons] at hw
    have hclk : (toggleLed (delay 1000 d)).clock = d.clock + 1000 := rfl
    simp only [flatRounds, List.cons_append, connectLoop, if_neg hr1, if_neg hr2]
    by_cases ht : subUL (millis (toggleLed (delay 1000 d))) (T0 % 4294967296) > 10000
    · rw [if_pos ht]
      refine Or.inl ⟨_, _, 1, rfl, rfl, rfl, ⟨rounds, rfl, fun x hx => (hrs x hx).1⟩,
        by simp, ?_⟩
      unfold subUL millis at ht
      rw [hclk] at ht
      omega
    · rw [if_neg ht]
      have hnt : d.clock + 1000 - T0 ≤ 10000 := by
        unfold subUL millis at ht
        rw [hclk] at ht
        omega
      have hclk2 : (emit .yield (toggleLed (delay 1000 d))).clock = d.clock + 1000 := rfl
      rcases ih (emit .yield (toggleLed (delay 1000 d))) hrs (by rw [hclk2]; omega)
          (by rw [hclk2]; omega) with
        ⟨rest, c, k, h1, h2, h3, h4, h5, h6⟩ | ⟨c, h1, h2, h3, h4, h5⟩
      · refine Or.inl ⟨rest, c, k + 1, h1, h2, h3, h4, by simp [h5], ?_⟩
        rw [hclk2] at h6
        omega
      · refine Or.inr ⟨c, h1, ?_, ?_, ?_, ?_⟩
        · rw [h2, hclk2, List.length_cons]
          omega
        · rw [h3]
          rfl
        · rw [h4]
          rfl
        · intro _
          rw [List.length_cons]
          by_cases hn : rounds = []
          · subst hn
            simpa using hnt
          · have := h5 hn
            rw [hclk2] at this
            omega

theorem flatRounds_head (rs : List (wl_status_t × wl_status_t)) (tail rest : List wl_status_t)
    (st fin : wl_status_t) (hrs : ∀ r ∈ rs, r.1 ≠ .WL_CONNECTED) (hfin : fin ≠ .WL_CONNECTED)
    (h : st :: rest = flatRounds rs ++ fin :: tail) : st ≠ .WL_CONNECTED := by
  cases rs with
  | nil =>
    simp only [flatRounds, List.nil_append, List.cons.injEq] at h
    rw [h.1]
    exact hfin
  | cons r rs =>
    simp only [flatRounds, List.cons_append, List.cons.injEq] at h
    rw [h.1]
    exact hrs r (List.mem_cons_self _ _)

/-- C16 as stated fails.  In the sample state (WiFi disabled, password "pw") the answers
"other", "wrong password", "connected" make `initWifi` return with `Wifienabled = true` and
`Blink = false` although a poll reported wrong credentials: the query after the loop
(line 324) is answered "connected". -/
theorem C16_counterexample :
    (initWifi [.other, .WL_WRONG_PASSWORD, .WL_CONNECTED] sampleDev).map
      (fun d => (d.Wifienabled, d.Blink)) = some (true, false) := by
  decide

/-- C16 (amended): `initWifi` called with WiFi disabled and a non-empty password, the answers
of `WiFi.status()` starting with rounds in which the loop condition is not answered
"connected" and the query inside the loop is not answered "wrong password".
With at most 10 such rounds followed by a round whose query inside the loop answers "wrong
password", or with 11 such rounds (more than 10 seconds), `initWifi` returns with
`Blink = true` and `Wifienabled = false`, provided the query after the loop is not answered
"connected".  With at most 10 such rounds followed by "connected" for the loop condition and
for the query after the loop, it returns with `Wifienabled = true` and `Blink = false`. -/
theorem C16_enable_outcome (d : Dev) (hoff : d.Wifienabled = false) (hpwd : d.WIFI_PWD ≠ "")
    (rounds : List (wl_status_t × wl_status_t))
    (hr : ∀ r ∈ rounds, r.1 ≠ .WL_CONNECTED ∧ r.2 ≠ .WL_WRONG_PASSWORD) :
    (rounds.length ≤ 10 → ∀ (a fin : wl_status_t) (rest : List wl_status_t),
      a ≠ .WL_CONNECTED → fin ≠ .WL_CONNECTED →
      ∃ d', initWifi (flatRounds rounds ++ a :: .WL_WRONG_PASSWORD :: fin :: rest) d = some d' ∧
        d'.Blink = true ∧ d'.Wifienabled = false) ∧
    (rounds.length = 11 → ∀ (fin : wl_status_t) (rest : List wl_status_t),
      fin ≠ .WL_CONNECTED →
      ∃ d', initWifi (flatRounds rounds ++ fin :: rest) d = some d' ∧
        d'.Blink = true ∧ d'.Wifienabled = false) ∧
    (rounds.length ≤ 10 → ∀ rest : List wl_status_t,
      ∃ d', initWifi (flatRounds rounds ++ .WL_CONNECTED :: .WL_CONNECTED :: rest) d
          = some d' ∧
        d'.Wifienabled = true ∧ d'.Blink = false) := by
  have hL := fun tail (hw : (wifiBegun d).clock + 1000 * rounds.length - (wifiBegun d).clock
      < 4294967296) =>
    connectLoop_rounds (wifiBegun d).clock tail rounds (wifiBegun d) hr (le_refl _) hw
  refine ⟨?_, ?_, ?_⟩
  · intro hlen a fin rest ha hfin
    rcases hL (a :: .WL_WRONG_PASSWORD :: fin :: rest) (by omega) with
      ⟨_, _, k, _, _, _, _, hk, hk2⟩ | ⟨c, hc, _, _, _, _⟩
    · omega
    · have hloop : connectLoop (millis (wifiBegun d))
          (flatRounds rounds ++ a :: .WL_WRONG_PASSWORD :: fin :: rest) (wifiBegun d) =
          some (fin :: rest,
            { toggleLed (delay 1000 c) with Blink := true, Wifienabled := false }) := by
        unfold millis
        rw [hc]
        simp [connectLoop, ha]
      rw [initWifi_begun _ _ _ d _ hoff hpwd hloop, if_neg hfin]
      exact ⟨_, rfl, rfl, rfl⟩
  · intro hlen fin rest hfin
    rcases hL (fin :: rest) (by omega) with
      ⟨rest', c, k, hc, hb, hw, ⟨rs, hrs, hrs2⟩, _, _⟩ | ⟨c, _, _, _, _, hno⟩
    · cases rest' with
      | nil =>
        cases rs <;> simp [flatRounds] at hrs
      | cons st rest'' =>
        have hst := flatRounds_head rs rest rest'' st fin hrs2 hfin hrs
        have hloop : connectLoop (millis (wifiBegun d)) (flatRounds rounds ++ fin :: rest)
            (wifiBegun d) = some (st :: rest'', c) := hc
        rw [initWifi_begun _ _ _ d _ hoff hpwd hloop, if_neg hst]
        exact ⟨c, rfl, hb, hw⟩
    · have hne : rounds ≠ [] := by
        intro h
        rw [h] at hlen
        simp at hlen
      have := hno hne
      omega
  · intro hlen rest
    rcases hL (.WL_CONNECTED :: .WL_CONNECTED :: rest) (by omega) with
      ⟨_, _, k, _, _, _, _, hk, hk2⟩ | ⟨c, hc, _, _, _, _⟩
    · omega
    · have hloop : connectLoop (millis (wifiBegun d))
          (flatRounds rounds ++ .WL_CONNECTED :: .WL_CONNECTED :: rest) (wifiBegun d) =
          some (.WL_CONNECTED :: rest, c) := by
        unfold millis
        rw [hc]
        simp [connectLoop]
      rw [initWifi_begun _ _ _ d _ hoff hpwd hloop, if_pos rfl]
      exact ⟨_, rfl, rfl, rfl⟩

/-- C16 witness: in the sample state, two waiting rounds, then "wrong password" inside the
loop and "other" after the loop. -/
theorem C16_enable_outcome_witness :
    ∃ d', initWifi (flatRounds [(.other, .other), (.other, .other)] ++
        .other :: .WL_WRONG_PASSWORD :: .other :: []) sampleDev = some d' ∧
      d'.Blink = true ∧ d'.Wifienabled = false :=
  (C16_enable_outcome sampleDev rfl (by decide) [(.other, .other), (.other, .other)]
    (by decide)).1 (by decide) .other .other [] (by decide) (by decide)

end AirVent
